import Mathlib

/-!
# Verification of the Sentinel wire protocol (src/shared/protocol.py)

A shallow embedding of the protocol layer of the Sentinel repository:
the packet framer (`pack` / `unpack`), the payload codecs (`Status`,
`Request`, acknowledge packets) and the packet dispatcher
(`parse_packet`), together with proofs about the behaviour the
specification claims.

Modelling conventions:
* Python `bytes` is `List ℕ` (each entry a byte value `< 256` where the
  code constructs it).
* Python `str` is `List Char` (Unicode scalar values; Lean `Char`
  excludes surrogates, which matches well-formed Python text).
* Python `float` is `ℚ`.  `round(x, 3)` is modelled as exact
  round-half-to-even on rationals; the binary double-precision artefacts
  of CPython floats (e.g. `round(2.675, 2)`) are outside the model, as is
  the scientific-notation `repr` of floats of magnitude `≥ 1e16`.
* Python `int` is `ℤ`.  The CPython corner `isinstance(True, int)` is not
  modelled: the dynamic-value universe `JValue` simply has no booleans
  (no claim involves one).
* `datetime` is a record of calendar fields; `strftime('%Y%m%d%H%M')`
  zero-pads the year to four digits as documented by CPython.
* Exceptions are `Except ProtoError`.  Python `ValueError` raised on the
  two `pack` patterns is split into `invalidHostId` / `invalidMsgType`
  (the spec's names); `TypeError` from `Status.__post_init__` is
  `typeMismatch`; `json` / `unicode` / `strptime` failures are collapsed
  into `jsonError` / `decodeFailure` / `formatFailure`.
* `json.dumps(..., separators=(',', ':'))` with the default
  `ensure_ascii=True` and `json.loads` are modelled by an executable
  printer and parser for the flat objects the protocol exchanges
  (string keys, scalar values).  The parser accepts the compact
  whitespace-free documents the printer emits; `json.loads`' tolerance
  for surrounding whitespace, nested containers and `true/false`
  literals is not modelled (no claim exercises it, and nested values
  would fail the construction-time type check anyway).
-/

deriving instance DecidableEq for Except

namespace Sentinel

/-- Dynamic (JSON-representable) Python values flowing through the
payload codecs: `None`, `str`, `int` and `float`. -/
inductive JValue where
  | jnull
  | jint (n : ℤ)
  | jfloat (q : ℚ)
  | jstr (s : List Char)
deriving DecidableEq, Repr

/-- The failure kinds of the protocol layer (§7 of the spec). -/
inductive ProtoError where
  | incompletePacket (packetSize expectedSize : ℕ)
  | unknownAlias (a : List Char)
  | unknownFieldName (f : List Char)
  | unknownMessageType (m : List Char)
  | invalidHostId (h : List Char)
  | invalidMsgType (m : List Char)
  | typeMismatch (f : List Char)
  | structRangeFailure
  | decodeFailure
  | formatFailure
  | jsonError
deriving DecidableEq, Repr

/-! ## Module constants (protocol.py lines 10–17) -/

def DATETIME_FORMAT : List Char := "%Y%m%d%H%M".toList

def HEADER_FORMAT : List Char := "!B7s12s1sI".toList

/-- `struct.calcsize('!B7s12s1sI') = 1 + 7 + 12 + 1 + 4`. -/
def HEADER_SIZE : ℕ := 25

def PROTOCOL_VERSION : ℕ := 1

/-- `HOST_ID_PATTERN = re.compile(r'^[a-z0-9]{7}$')` applied via `.match`. -/
def validHostId (s : List Char) : Bool :=
  s.length == 7 &&
    s.all (fun c => decide ((97 ≤ c.toNat ∧ c.toNat ≤ 122) ∨ (48 ≤ c.toNat ∧ c.toNat ≤ 57)))

/-- `MSG_TYPE_PATTERN = re.compile(r'^[A-Z]{1}$')` applied via `.match`. -/
def validMsgTypePattern (s : List Char) : Bool :=
  s.length == 1 && s.all (fun c => decide (65 ≤ c.toNat ∧ c.toNat ≤ 90))

/-- The closed message-type set `MessageTypes` (`'S'`, `'R'`, `'A'`). -/
def MessageTypesValues : List (List Char) := [['S'], ['R'], ['A']]

/-! ## Python `str.strip()` (default whitespace, ASCII portion) -/

def isPySpace (c : Char) : Bool :=
  c == ' ' || c == '\t' || c == '\n' || c == '\r' ||
  c == Char.ofNat 11 || c == Char.ofNat 12

def stripChars (s : List Char) : List Char :=
  ((s.dropWhile isPySpace).reverse.dropWhile isPySpace).reverse

/-! ## UTF-8 (`ENCODING = 'utf-8'`): `str.encode` / `bytes.decode` -/

def utf8EncodeChar (c : Char) : List ℕ :=
  let n := c.toNat
  if n < 0x80 then [n]
  else if n < 0x800 then [0xC0 + n / 0x40, 0x80 + n % 0x40]
  else if n < 0x10000 then
    [0xE0 + n / 0x1000, 0x80 + n / 0x40 % 0x40, 0x80 + n % 0x40]
  else
    [0xF0 + n / 0x40000, 0x80 + n / 0x1000 % 0x40,
     0x80 + n / 0x40 % 0x40, 0x80 + n % 0x40]

def utf8Encode : List Char → List ℕ
  | [] => []
  | c :: cs => utf8EncodeChar c ++ utf8Encode cs

def isUtf8Cont (b : ℕ) : Bool := 0x80 ≤ b && b < 0xC0

/-- One step of strict UTF-8 decoding (`bytes.decode('utf-8')`): the
first scalar value and the remaining bytes, rejecting stray continuation
bytes, overlong forms and surrogate code points. -/
def utf8DecodeStep : List ℕ → Option (Char × List ℕ)
  | [] => none
  | b :: bs =>
    if b < 0x80 then some (Char.ofNat b, bs)
    else if b < 0xC2 then none
    else if b < 0xE0 then
      match bs with
      | b2 :: bs2 =>
        if isUtf8Cont b2 then
          some (Char.ofNat ((b - 0xC0) * 0x40 + (b2 - 0x80)), bs2)
        else none
      | [] => none
    else if b < 0xF0 then
      match bs with
      | b2 :: b3 :: bs3 =>
        if isUtf8Cont b2 && isUtf8Cont b3 &&
            (b != 0xE0 || 0xA0 ≤ b2) && (b != 0xED || b2 < 0xA0) then
          some (Char.ofNat ((b - 0xE0) * 0x1000 + (b2 - 0x80) * 0x40 + (b3 - 0x80)), bs3)
        else none
      | _ => none
    else if b < 0xF5 then
      match bs with
      | b2 :: b3 :: b4 :: bs4 =>
        if isUtf8Cont b2 && isUtf8Cont b3 && isUtf8Cont b4 &&
            (b != 0xF0 || 0x90 ≤ b2) && (b != 0xF4 || b2 < 0x90) then
          some (Char.ofNat ((b - 0xF0) * 0x40000 + (b2 - 0x80) * 0x1000 +
            (b3 - 0x80) * 0x40 + (b4 - 0x80)), bs4)
        else none
      | _ => none
    else none

/-- Decode loop; `fuel` bounds the recursion and every step consumes at
least one byte, so `utf8Decode` supplies the input length. -/
def utf8DecodeAux : ℕ → List ℕ → Option (List Char)
  | _, [] => some []
  | 0, _ :: _ => none
  | fuel + 1, b :: bs =>
    (utf8DecodeStep (b :: bs)).bind
      (fun cr => (utf8DecodeAux fuel cr.2).map (fun cs => cr.1 :: cs))

/-- Strict UTF-8 decoding of a whole byte sequence
(`bytes.decode('utf-8')`). -/
def utf8Decode (bs : List ℕ) : Option (List Char) := utf8DecodeAux bs.length bs

/-! ## `datetime`, `strftime('%Y%m%d%H%M')` and `strptime` -/

structure PyDateTime where
  year : ℕ
  month : ℕ
  day : ℕ
  hour : ℕ
  minute : ℕ
  second : ℕ
  microsecond : ℕ
deriving DecidableEq, Repr

def isLeapYear (y : ℕ) : Bool :=
  y % 4 == 0 && (y % 100 != 0 || y % 400 == 0)

def daysInMonth (y m : ℕ) : ℕ :=
  if m == 2 then (if isLeapYear y then 29 else 28)
  else if m == 4 || m == 6 || m == 9 || m == 11 then 30
  else 31

/-- The invariants of a constructed `datetime` object (`MINYEAR = 1`,
`MAXYEAR = 9999`). -/
def PyDateTime.valid (t : PyDateTime) : Prop :=
  1 ≤ t.year ∧ t.year ≤ 9999 ∧ 1 ≤ t.month ∧ t.month ≤ 12 ∧
  1 ≤ t.day ∧ t.day ≤ daysInMonth t.year t.month ∧
  t.hour ≤ 23 ∧ t.minute ≤ 59 ∧ t.second ≤ 59 ∧ t.microsecond ≤ 999999

instance (t : PyDateTime) : Decidable t.valid := by
  unfold PyDateTime.valid; infer_instance

/-- What `strptime` can reconstruct from a `%Y%m%d%H%M` string: the
minute-granularity truncation. -/
def PyDateTime.truncToMinute (t : PyDateTime) : PyDateTime :=
  { t with second := 0, microsecond := 0 }

def digitChar (n : ℕ) : Char := Char.ofNat (48 + n % 10)

def pad2 (n : ℕ) : List Char := [digitChar (n / 10), digitChar n]

def pad4 (n : ℕ) : List Char :=
  [digitChar (n / 1000), digitChar (n / 100), digitChar (n / 10), digitChar n]

/-- `timestamp.strftime('%Y%m%d%H%M')`. -/
def formatTimestamp (t : PyDateTime) : List Char :=
  pad4 t.year ++ pad2 t.month ++ pad2 t.day ++ pad2 t.hour ++ pad2 t.minute

def isDigitChar (c : Char) : Bool := decide (48 ≤ c.toNat ∧ c.toNat ≤ 57)

def digitVal (c : Char) : ℕ := c.toNat - 48

def digitsVal (ds : List Char) : ℕ :=
  ds.foldl (fun a c => a * 10 + digitVal c) 0

/-- `datetime.strptime(s, '%Y%m%d%H%M')`: twelve digits, split 4/2/2/2/2,
with the field-range validation `strptime` and the `datetime` constructor
perform. -/
def parseTimestamp (s : List Char) : Except ProtoError PyDateTime :=
  if s.length = 12 ∧ s.all isDigitChar then
    let y := digitsVal (s.take 4)
    let mo := digitsVal ((s.drop 4).take 2)
    let d := digitsVal ((s.drop 6).take 2)
    let h := digitsVal ((s.drop 8).take 2)
    let mi := digitsVal ((s.drop 10).take 2)
    if 1 ≤ y ∧ 1 ≤ mo ∧ mo ≤ 12 ∧ 1 ≤ d ∧ d ≤ daysInMonth y mo ∧ h ≤ 23 ∧ mi ≤ 59 then
      .ok ⟨y, mo, d, h, mi, 0, 0⟩
    else .error .formatFailure
  else .error .formatFailure

/-! ## The packet framer: `pack` (lines 58–75) and `unpack` (78–90) -/

/-- `struct`'s `Ns` field: truncate to `n` bytes or pad with `\x00`. -/
def fitBytes (n : ℕ) (bs : List ℕ) : List ℕ :=
  bs.take n ++ List.replicate (n - bs.length) 0

/-- Big-endian 4-byte encoding of `struct`'s `I` field. -/
def be32 (n : ℕ) : List ℕ :=
  [n / 0x1000000 % 256, n / 0x10000 % 256, n / 0x100 % 256, n % 256]

def parseBE32 (bs : List ℕ) : ℕ := bs.foldl (fun a b => a * 256 + b) 0

/-- `pack(host_id, timestamp, msg_type, payload)`: validate the two
patterns and the closed message-type set, then emit
`struct.pack('!B7s12s1sI', ...) + payload`.  (`struct` raises on a
payload length that does not fit the `I` field.) -/
def pack (hostId : List Char) (timestamp : PyDateTime) (msgType : List Char)
    (payload : List ℕ) : Except ProtoError (List ℕ) :=
  if ¬ validHostId hostId then .error (.invalidHostId hostId)
  else if ¬ validMsgTypePattern msgType then .error (.invalidMsgType msgType)
  else if ¬ (msgType ∈ MessageTypesValues) then .error (.unknownMessageType msgType)
  else if 0x100000000 ≤ payload.length then .error .structRangeFailure
  else .ok ([PROTOCOL_VERSION] ++ fitBytes 7 (utf8Encode hostId) ++
    fitBytes 12 (utf8Encode (formatTimestamp timestamp)) ++
    fitBytes 1 (utf8Encode msgType) ++ be32 payload.length ++ payload)

/-- `unpack(packet)`: length check, `struct.unpack` of the header,
decode + strip the host id, decode + `strptime` the timestamp, decode +
strip the message type, then slice `packet[HEADER_SIZE : HEADER_SIZE +
payload_size]`. -/
def unpack (packet : List ℕ) :
    Except ProtoError (ℕ × List Char × PyDateTime × List Char × ℕ × List ℕ) :=
  if packet.length < HEADER_SIZE then
    .error (.incompletePacket packet.length HEADER_SIZE)
  else
    let version := packet.headI
    let hostBytes := (packet.drop 1).take 7
    let tsBytes := (packet.drop 8).take 12
    let mtBytes := (packet.drop 20).take 1
    let sizeBytes := (packet.drop 21).take 4
    match utf8Decode hostBytes with
    | none => .error .decodeFailure
    | some hostChars =>
      match utf8Decode tsBytes with
      | none => .error .decodeFailure
      | some tsChars =>
        match parseTimestamp tsChars with
        | .error e => .error e
        | .ok timestamp =>
          match utf8Decode mtBytes with
          | none => .error .decodeFailure
          | some mtChars =>
            let payloadSize := parseBE32 sizeBytes
            .ok (version, stripChars hostChars, timestamp, stripChars mtChars,
              payloadSize, (packet.drop HEADER_SIZE).take payloadSize)

/-! ## Decimal printing of `int` and of `round(·, 3)` floats

`json.dumps` renders an `int` via `repr` (decimal digits, `-` sign) and a
`float` via `float.__repr__` (shortest decimal that round-trips).  The
floats the codec prints always carry at most three decimal digits
(`round(x, 3)` runs first), for which the shortest round-tripping decimal
is the plain fixed-point form with trailing zeros dropped and at least
one fractional digit (`8.5`, `2.0`, `16.029`). -/

/-- Decimal digits of `n`, most significant first, prepended to `acc`.
Structural recursion on `fuel` (any `fuel > n` is enough, since `n / 10`
shrinks); `natToChars` supplies `n + 1`. -/
def natDigitsAux (fuel : ℕ) (n : ℕ) (acc : List Char) : List Char :=
  match fuel with
  | 0 => acc
  | fuel + 1 =>
    if n < 10 then digitChar n :: acc
    else natDigitsAux fuel (n / 10) (digitChar (n % 10) :: acc)

def natToChars (n : ℕ) : List Char := natDigitsAux (n + 1) n []

def intToChars (i : ℤ) : List Char :=
  if i < 0 then '-' :: natToChars i.natAbs else natToChars i.natAbs

/-- Round-half-to-even of `(n * 1000) / d` to an integer, computed on
the numerator and denominator directly (`f` is the floor, `r2` twice the
remainder; ties go to the even neighbour, Python `round`'s tie-breaking). -/
def roundHalfEvenScaled (n : ℤ) (d : ℕ) : ℤ :=
  let f := Int.fdiv (n * 1000) d
  let r2 := 2 * (n * 1000 - f * d)
  if r2 < d then f
  else if (d : ℤ) < r2 then f + 1
  else if f % 2 = 0 then f else f + 1

/-- `round(x, 3)`: the nearest multiple of `1/1000`, ties to even. -/
def round3 (q : ℚ) : ℚ := Rat.divInt (roundHalfEvenScaled q.num q.den) 1000

/-- The (up to three) fractional digit characters of a thousandths part
`f < 1000`: trailing zeros dropped, at least one digit kept. -/
def fracChars (f : ℕ) : List Char :=
  if f % 10 ≠ 0 then [digitChar (f / 100), digitChar (f / 10), digitChar f]
  else if f % 100 ≠ 0 then [digitChar (f / 100), digitChar (f / 10)]
  else if f ≠ 0 then [digitChar (f / 100)]
  else ['0']

/-- `repr` of a float whose value is an exact multiple of `1/1000` (every
float the codec prints, since `round(·, 3)` runs first): `m` is
`⌊|q| * 1000⌋` computed on the numerator and denominator. -/
def printFloat (q : ℚ) : List Char :=
  let m := q.num.natAbs * 1000 / q.den
  (if q.num < 0 then ['-'] else []) ++ natToChars (m / 1000) ++ '.' :: fracChars (m % 1000)

/-! ## JSON printing (`json.dumps(data, separators=(',', ':'))`,
`ensure_ascii=True`) -/

def hexDigitChar (n : ℕ) : Char :=
  if n % 16 < 10 then Char.ofNat (48 + n % 16) else Char.ofNat (87 + n % 16)

def hex4Chars (v : ℕ) : List Char :=
  [hexDigitChar (v / 0x1000), hexDigitChar (v / 0x100), hexDigitChar (v / 0x10),
   hexDigitChar v]

/-- One character of a JSON string, escaped the way CPython's
`ensure_ascii` encoder does: the seven short escapes, printable ASCII
verbatim, `\uXXXX` otherwise (a surrogate pair beyond the BMP). -/
def escapeChar (c : Char) : List Char :=
  if c = '\\' then ['\\', '\\']
  else if c = '"' then ['\\', '"']
  else if c = Char.ofNat 8 then ['\\', 'b']
  else if c = Char.ofNat 9 then ['\\', 't']
  else if c = Char.ofNat 10 then ['\\', 'n']
  else if c = Char.ofNat 12 then ['\\', 'f']
  else if c = Char.ofNat 13 then ['\\', 'r']
  else if 0x20 ≤ c.toNat ∧ c.toNat ≤ 0x7E then [c]
  else if c.toNat < 0x10000 then '\\' :: 'u' :: hex4Chars c.toNat
  else
    '\\' :: 'u' :: hex4Chars (0xD800 + (c.toNat - 0x10000) / 0x400) ++
      '\\' :: 'u' :: hex4Chars (0xDC00 + (c.toNat - 0x10000) % 0x400)

def escapeChars : List Char → List Char
  | [] => []
  | c :: cs => escapeChar c ++ escapeChars cs

def printJString (s : List Char) : List Char := '"' :: escapeChars s ++ ['"']

def printJValue : JValue → List Char
  | .jnull => "null".toList
  | .jint n => intToChars n
  | .jfloat q => printFloat q
  | .jstr s => printJString s

def printEntry (kv : List Char × JValue) : List Char :=
  printJString kv.1 ++ ':' :: printJValue kv.2

def printEntries : List (List Char × JValue) → List Char
  | [] => []
  | [kv] => printEntry kv
  | kv :: kvs => printEntry kv ++ ',' :: printEntries kvs

/-- `json.dumps` of a flat object, compact separators. -/
def jsonDumps (entries : List (List Char × JValue)) : List Char :=
  '\x7b' :: printEntries entries ++ ['\x7d']

/-! ## `Status` (protocol.py lines 93–174) -/

structure Status where
  host_name : Option (List Char) := none
  ram_total : Option ℚ := none
  ram_usage : Option ℚ := none
  cpu_total : Option ℤ := none
  cpu_usage : Option ℚ := none
  cpu_temperature : Option ℚ := none
  disk_usage : Option ℚ := none
  disk_total : Option ℚ := none
deriving DecidableEq, Repr

namespace Status

/-- `Status.FIELD_ALIAS`, in the source's dict-literal order. -/
def FIELD_ALIAS : List (List Char × List Char) :=
  [("host_name".toList, "HNM".toList),
   ("ram_total".toList, "RTT".toList),
   ("ram_usage".toList, "RUG".toList),
   ("cpu_total".toList, "CTT".toList),
   ("cpu_usage".toList, "CUG".toList),
   ("cpu_temperature".toList, "CTP".toList),
   ("disk_total".toList, "DTT".toList),
   ("disk_usage".toList, "DUG".toList)]

/-- `Status.FIELD_ALIAS[field_name]` (total lookup; every caller passes a
declared field name). -/
def aliasOfD (name : List Char) : List Char :=
  ((FIELD_ALIAS.lookup name).getD [])

/-- `{value: key for key, value in Status.FIELD_ALIAS.items()}`. -/
def aliasToField (a : List Char) : Option (List Char) :=
  (FIELD_ALIAS.map (fun kv => (kv.2, kv.1))).lookup a

end Status

/-- The keyword arguments `Status(**kwargs)` is called with: each
declared field either absent (defaulting to `None`) or bound to a
dynamic value. -/
structure StatusKwargs where
  host_name : Option JValue := none
  ram_total : Option JValue := none
  ram_usage : Option JValue := none
  cpu_total : Option JValue := none
  cpu_usage : Option JValue := none
  cpu_temperature : Option JValue := none
  disk_usage : Option JValue := none
  disk_total : Option JValue := none
deriving DecidableEq, Repr

/-- `__post_init__`'s per-field check for an `Optional[str]` field:
`None` passes (the type is `Optional`), otherwise `isinstance(v, str)`. -/
def checkStr (fieldName : List Char) (v : Option JValue) :
    Except ProtoError (Option (List Char)) :=
  match v with
  | none | some .jnull => .ok none
  | some (.jstr s) => .ok (some s)
  | some _ => .error (.typeMismatch fieldName)

/-- `__post_init__`'s per-field check for an `Optional[float]` field. -/
def checkFloat (fieldName : List Char) (v : Option JValue) :
    Except ProtoError (Option ℚ) :=
  match v with
  | none | some .jnull => .ok none
  | some (.jfloat q) => .ok (some q)
  | some _ => .error (.typeMismatch fieldName)

/-- `__post_init__`'s per-field check for an `Optional[int]` field. -/
def checkInt (fieldName : List Char) (v : Option JValue) :
    Except ProtoError (Option ℤ) :=
  match v with
  | none | some .jnull => .ok none
  | some (.jint n) => .ok (some n)
  | some _ => .error (.typeMismatch fieldName)

/-- `Status(**kwargs)`: the dataclass constructor followed by
`__post_init__`'s per-field validation, fields checked in declaration
order, stopping at the first ill-typed field. -/
def mkStatus (kw : StatusKwargs) : Except ProtoError Status := do
  let hn ← checkStr "host_name".toList kw.host_name
  let rt ← checkFloat "ram_total".toList kw.ram_total
  let ru ← checkFloat "ram_usage".toList kw.ram_usage
  let ct ← checkInt "cpu_total".toList kw.cpu_total
  let cu ← checkFloat "cpu_usage".toList kw.cpu_usage
  let ctp ← checkFloat "cpu_temperature".toList kw.cpu_temperature
  let du ← checkFloat "disk_usage".toList kw.disk_usage
  let dt ← checkFloat "disk_total".toList kw.disk_total
  pure ⟨hn, rt, ru, ct, cu, ctp, du, dt⟩

namespace Status

def optEntry (name : List Char) (v : Option JValue) : List (List Char × JValue) :=
  match v with
  | none => []
  | some w => [(aliasOfD name, w)]

/-- The `data` dict `serialize` builds: set fields only, float fields
rounded to 3 decimals, keys looked up in `FIELD_ALIAS`, iteration in
dataclass field order. -/
def serializeData (s : Status) : List (List Char × JValue) :=
  optEntry "host_name".toList (s.host_name.map .jstr) ++
  optEntry "ram_total".toList (s.ram_total.map (fun q => .jfloat (round3 q))) ++
  optEntry "ram_usage".toList (s.ram_usage.map (fun q => .jfloat (round3 q))) ++
  optEntry "cpu_total".toList (s.cpu_total.map .jint) ++
  optEntry "cpu_usage".toList (s.cpu_usage.map (fun q => .jfloat (round3 q))) ++
  optEntry "cpu_temperature".toList (s.cpu_temperature.map (fun q => .jfloat (round3 q))) ++
  optEntry "disk_usage".toList (s.disk_usage.map (fun q => .jfloat (round3 q))) ++
  optEntry "disk_total".toList (s.disk_total.map (fun q => .jfloat (round3 q)))

/-- `Status.serialize`: `json.dumps(data, separators=(',', ':')).encode('utf-8')`. -/
def serialize (s : Status) : List ℕ := utf8Encode (jsonDumps (serializeData s))

end Status

/-- `s` after the codec's precision loss: every set float field rounded
to three decimals. -/
def roundStatus3 (s : Status) : Status :=
  { host_name := s.host_name,
    ram_total := s.ram_total.map round3,
    ram_usage := s.ram_usage.map round3,
    cpu_total := s.cpu_total,
    cpu_usage := s.cpu_usage.map round3,
    cpu_temperature := s.cpu_temperature.map round3,
    disk_usage := s.disk_usage.map round3,
    disk_total := s.disk_total.map round3 }

/-! ## JSON parsing (`json.loads`), restricted to the compact flat
documents the codec exchanges -/

def takeDigitsFrom : List Char → List Char × List Char
  | c :: cs =>
    if isDigitChar c then
      let (ds, r) := takeDigitsFrom cs
      (c :: ds, r)
    else ([], c :: cs)
  | [] => ([], [])

def hexCharVal (c : Char) : Option ℕ :=
  if 48 ≤ c.toNat ∧ c.toNat ≤ 57 then some (c.toNat - 48)
  else if 97 ≤ c.toNat ∧ c.toNat ≤ 102 then some (c.toNat - 87)
  else if 65 ≤ c.toNat ∧ c.toNat ≤ 70 then some (c.toNat - 55)
  else none

def hex4Val (a b c d : Char) : Option ℕ := do
  let va ← hexCharVal a
  let vb ← hexCharVal b
  let vc ← hexCharVal c
  let vd ← hexCharVal d
  pure (va * 0x1000 + vb * 0x100 + vc * 0x10 + vd)

def shortUnescape (c : Char) : Option Char :=
  if c = '"' then some '"'
  else if c = '\\' then some '\\'
  else if c = '/' then some '/'
  else if c = 'b' then some (Char.ofNat 8)
  else if c = 'f' then some (Char.ofNat 12)
  else if c = 'n' then some (Char.ofNat 10)
  else if c = 'r' then some (Char.ofNat 13)
  else if c = 't' then some (Char.ofNat 9)
  else none

/-- Decode the escape sequence that follows a backslash: one of the
short escapes, or a `\uXXXX` escape with a surrogate pair recombined (a
lone surrogate is not representable as a Lean `Char` and is rejected);
returns the decoded character and the remaining input. -/
def jstrEsc : List Char → Option (Char × List Char)
  | [] => none
  | e :: rest2 =>
    if e = 'u' then
      match rest2.take 4 with
      | [a, b, c', d] =>
        match hex4Val a b c' d with
        | none => none
        | some v =>
          if v < 0xD800 ∨ 0xE000 ≤ v then some (Char.ofNat v, rest2.drop 4)
          else if v < 0xDC00 then
            if (rest2.drop 4).take 2 = ['\\', 'u'] then
              match ((rest2.drop 4).drop 2).take 4 with
              | [e', f, g, h] =>
                match hex4Val e' f g h with
                | none => none
                | some w =>
                  if 0xDC00 ≤ w ∧ w < 0xE000 then
                    some (Char.ofNat (0x10000 + (v - 0xD800) * 0x400 + (w - 0xDC00)),
                      ((rest2.drop 4).drop 2).drop 4)
                  else none
              | _ => none
            else none
          else none
      | _ => none
    else (shortUnescape e).map (fun ch => (ch, rest2))

/-- JSON string contents after the opening quote, strict mode: raw
control characters rejected, escapes decoded by `jstrEsc`; `fuel` bounds
the number of decoded characters and is instantiated with the input
length plus one, which is ample since every character consumes input. -/
def parseJStringAux (fuel : ℕ) (acc : List Char) (cs : List Char) :
    Option (List Char × List Char) :=
  match fuel with
  | 0 => none
  | fuel + 1 =>
    match cs with
    | [] => none
    | c :: rest =>
      if c = '"' then some (acc.reverse, rest)
      else if c = '\\' then
        match jstrEsc rest with
        | none => none
        | some (ch, rest2) => parseJStringAux fuel (ch :: acc) rest2
      else if 0x20 ≤ c.toNat then parseJStringAux fuel (c :: acc) rest
      else none

/-- A JSON number, as the printer emits them: optional sign, integer
digits, optional fractional digits (`json.loads` maps the dotted form to
`float` and the bare form to `int`; exponent forms are outside the
model). -/
def parseNumber (cs : List Char) : Option (JValue × List Char) :=
  let cs1 := if cs.head? = some '-' then cs.tail else cs
  let intp := takeDigitsFrom cs1
  if intp.1.isEmpty then none
  else if intp.2.head? = some '.' then
    let fracp := takeDigitsFrom intp.2.tail
    if fracp.1.isEmpty then none
    else
      let q : ℚ := (digitsVal intp.1 : ℚ) + (digitsVal fracp.1 : ℚ) / ((10 : ℚ) ^ fracp.1.length)
      some (.jfloat (if cs.head? = some '-' then -q else q), fracp.2)
  else
    some (.jint (if cs.head? = some '-' then -(digitsVal intp.1 : ℤ)
      else (digitsVal intp.1 : ℤ)), intp.2)

def parseScalar (cs : List Char) : Option (JValue × List Char) :=
  if cs.head? = some '"' then
    (parseJStringAux (cs.length + 1) [] cs.tail).map (fun sr => (.jstr sr.1, sr.2))
  else if cs.take 4 = "null".toList then some (.jnull, cs.drop 4)
  else parseNumber cs

/-- One-or-more `"key":value` members, each followed by `,` (continue)
or `}` (end); `fuel` bounds the recursion and is instantiated with the
input length, which is ample since every member consumes characters. -/
def parseMembers (fuel : ℕ) (cs : List Char) :
    Option (List (List Char × JValue) × List Char) :=
  match fuel with
  | 0 => none
  | fuel + 1 =>
    match cs with
    | '"' :: r =>
      match parseJStringAux (r.length + 1) [] r with
      | none => none
      | some (key, r1) =>
        if r1.head? = some ':' then
          match parseScalar r1.tail with
          | none => none
          | some (v, r3) =>
            if r3.head? = some ',' then
              match parseMembers fuel r3.tail with
              | some (ms, r5) => some ((key, v) :: ms, r5)
              | none => none
            else if r3.head? = some '\x7d' then some ([(key, v)], r3.tail)
            else none
        else none
    | _ => none

/-- `json.loads` of a complete compact document, which for this protocol
is always a flat object; trailing characters are rejected. -/
def jsonParse (cs : List Char) : Option (List (List Char × JValue)) :=
  match cs with
  | '\x7b' :: r =>
    if r = ['\x7d'] then some []
    else
      match parseMembers (r.length + 1) r with
      | some (ms, rest) => if rest.isEmpty then some ms else none
      | none => none
  | _ => none

/-! ## `Status.deserialize` (lines 153–174) -/

def setKwarg (name : List Char) (v : JValue) (kw : StatusKwargs) : StatusKwargs :=
  if name = "host_name".toList then { kw with host_name := some v }
  else if name = "ram_total".toList then { kw with ram_total := some v }
  else if name = "ram_usage".toList then { kw with ram_usage := some v }
  else if name = "cpu_total".toList then { kw with cpu_total := some v }
  else if name = "cpu_usage".toList then { kw with cpu_usage := some v }
  else if name = "cpu_temperature".toList then { kw with cpu_temperature := some v }
  else if name = "disk_usage".toList then { kw with disk_usage := some v }
  else if name = "disk_total".toList then { kw with disk_total := some v }
  else kw

/-- The decode loop of `Status.deserialize`: map each key through the
inverted alias table (raising `UnknownAliasError` on the first unmapped
key, in document order) and collect `kwargs`.  (The `datetime` branch of
the loop is dead code: no `Status` field has a `datetime` type.) -/
def buildKwargs : List (List Char × JValue) → StatusKwargs → Except ProtoError StatusKwargs
  | [], kw => .ok kw
  | (k, v) :: rest, kw =>
    match Status.aliasToField k with
    | none => .error (.unknownAlias k)
    | some name => buildKwargs rest (setKwarg name v kw)

/-- `Status.deserialize` from already-parsed JSON data: the decode loop
followed by `Status(**kwargs)`. -/
def Status.deserializeData (entries : List (List Char × JValue)) :
    Except ProtoError Status :=
  buildKwargs entries {} >>= mkStatus

/-- `Status.deserialize(serialized_status)`:
`json.loads(serialized_status.decode('utf-8'))`, then the decode loop and
`Status(**kwargs)`. -/
def Status.deserialize (bs : List ℕ) : Except ProtoError Status :=
  match utf8Decode bs with
  | none => .error .decodeFailure
  | some text =>
    match jsonParse text with
    | none => .error .jsonError
    | some entries => Status.deserializeData entries

/-! ## `Request` (lines 177–205) -/

structure Request where
  requested_fields : List (List Char)
deriving DecidableEq, Repr

/-- `Request.__post_init__`: every requested field name must be a key of
the (shared) alias table, checked in list order. -/
def mkRequest (names : List (List Char)) : Except ProtoError Request :=
  match names.find? (fun n => (Status.FIELD_ALIAS.lookup n).isNone) with
  | some bad => .error (.unknownFieldName bad)
  | none => .ok ⟨names⟩

def joinSpace : List (List Char) → List Char
  | [] => []
  | [t] => t
  | t :: ts => t ++ ' ' :: joinSpace ts

/-- `Request.serialize`: the aliases of the requested fields joined by a
single space byte. -/
def Request.serialize (r : Request) : List ℕ :=
  utf8Encode (joinSpace (r.requested_fields.map Status.aliasOfD))

/-- Python `str.split(' ')` (explicit single-character separator: empty
tokens are preserved and the result is never the empty list). -/
def splitSpace : List Char → List (List Char)
  | [] => [[]]
  | c :: rest =>
    if c = ' ' then [] :: splitSpace rest
    else
      match splitSpace rest with
      | t :: ts => (c :: t) :: ts
      | [] => [[c]]

/-- The decode loop of `Request.deserialize`: map each token through the
inverted alias table, raising `UnknownAliasError` on the first unmapped
token. -/
def aliasesToFields : List (List Char) → Except ProtoError (List (List Char))
  | [] => .ok []
  | a :: rest =>
    match Status.aliasToField a with
    | none => .error (.unknownAlias a)
    | some n => (aliasesToFields rest).map (fun ns => n :: ns)

/-- `Request.deserialize(serialized_request)`: decode, strip, split on
spaces, map aliases back, then `Request(request_fields)`. -/
def Request.deserialize (bs : List ℕ) : Except ProtoError Request :=
  match utf8Decode bs with
  | none => .error .decodeFailure
  | some text => do
    let names ← aliasesToFields (splitSpace (stripChars text))
    mkRequest names

/-! ## Packet constructors and the dispatcher (lines 208–231) -/

def create_acknowledge_packet (hostId : List Char) (timestamp : PyDateTime) :
    Except ProtoError (List ℕ) :=
  pack hostId timestamp ['A'] []

def create_request_packet (hostId : List Char) (timestamp : PyDateTime)
    (r : Request) : Except ProtoError (List ℕ) :=
  pack hostId timestamp ['R'] r.serialize

def create_status_packet (hostId : List Char) (timestamp : PyDateTime)
    (s : Status) : Except ProtoError (List ℕ) :=
  pack hostId timestamp ['S'] s.serialize

/-- The result of `parse_packet`: `Status | Request | None` (the `ACK`
branch returns `None`). -/
inductive ParsedPacket where
  | status (s : Status)
  | request (r : Request)
  | ackNone
deriving DecidableEq, Repr

/-- `parse_packet(packet)`: unpack the header and dispatch on the
message type. -/
def parse_packet (packet : List ℕ) : Except ProtoError ParsedPacket :=
  match unpack packet with
  | .error e => .error e
  | .ok (_version, _hostId, _timestamp, msgType, _payloadSize, payload) =>
    if msgType = ['S'] then (Status.deserialize payload).map .status
    else if msgType = ['R'] then (Request.deserialize payload).map .request
    else if msgType = ['A'] then .ok .ackNone
    else .error (.unknownMessageType msgType)

/-! ## Well-typedness of constructor arguments (for stating the
construction-time validation property) -/

/-- `v is None or isinstance(v, str)` for an `Optional[str]` field. -/
def jvalOkStr : Option JValue → Bool
  | none | some .jnull | some (.jstr _) => true
  | _ => false

/-- `v is None or isinstance(v, float)` for an `Optional[float]` field. -/
def jvalOkFloat : Option JValue → Bool
  | none | some .jnull | some (.jfloat _) => true
  | _ => false

/-- `v is None or isinstance(v, int)` for an `Optional[int]` field. -/
def jvalOkInt : Option JValue → Bool
  | none | some .jnull | some (.jint _) => true
  | _ => false

/-- All eight constructor arguments match their declared field types. -/
def statusKwargsOk (kw : StatusKwargs) : Bool :=
  jvalOkStr kw.host_name && jvalOkFloat kw.ram_total && jvalOkFloat kw.ram_usage &&
  jvalOkInt kw.cpu_total && jvalOkFloat kw.cpu_usage && jvalOkFloat kw.cpu_temperature &&
  jvalOkFloat kw.disk_usage && jvalOkFloat kw.disk_total

/-- The first field (in declaration order, the order `__post_init__`
iterates) whose argument is ill-typed. -/
def firstIllTypedField (kw : StatusKwargs) : Option (List Char) :=
  if ¬ jvalOkStr kw.host_name then some "host_name".toList
  else if ¬ jvalOkFloat kw.ram_total then some "ram_total".toList
  else if ¬ jvalOkFloat kw.ram_usage then some "ram_usage".toList
  else if ¬ jvalOkInt kw.cpu_total then some "cpu_total".toList
  else if ¬ jvalOkFloat kw.cpu_usage then some "cpu_usage".toList
  else if ¬ jvalOkFloat kw.cpu_temperature then some "cpu_temperature".toList
  else if ¬ jvalOkFloat kw.disk_usage then some "disk_usage".toList
  else if ¬ jvalOkFloat kw.disk_total then some "disk_total".toList
  else none

/-! # Theorems

First generic helper lemmas, then one theorem per specification claim
(with a witness or counterexample where required). -/

theorem toNat_ofNat_valid (n : ℕ) (h : Nat.isValidChar n) : (Char.ofNat n).toNat = n := by
  unfold Char.ofNat
  rw [dif_pos h]
  rfl

theorem toNat_ofNat_small (n : ℕ) (h : n < 0xD800) : (Char.ofNat n).toNat = n :=
  toNat_ofNat_valid n (Or.inl h)

/-- C8: `unpack` on any buffer shorter than the header size fails with
`IncompletePacket`, reporting the actual buffer size and the expected
(header) size. -/
theorem unpack_incomplete (packet : List ℕ) (h : packet.length < HEADER_SIZE) :
    unpack packet = .error (.incompletePacket packet.length HEADER_SIZE) := by
  unfold unpack
  rw [if_pos h]

/-- C8 witness: a 3-byte buffer fails with `IncompletePacket` reporting
size 3 (expected 25). -/
theorem unpack_incomplete_witness :
    ([0, 0, 0] : List ℕ).length < HEADER_SIZE ∧
      unpack [0, 0, 0] = .error (.incompletePacket 3 HEADER_SIZE) :=
  ⟨by decide, unpack_incomplete [0, 0, 0] (by decide)⟩

/-- C9: `Status(ram_total=16.029413, ram_usage=8.5, cpu_total=8)`
serializes to exactly the UTF-8 bytes of
`{"RTT":16.029,"RUG":8.5,"CTT":8}`: the float is rounded to three
decimal places, the integer is unchanged, and unset fields produce no
key. -/
theorem status_serialize_concrete :
    Status.serialize
        { ram_total := some (mkRat 16029413 1000000),
          ram_usage := some (mkRat 85 10),
          cpu_total := some 8 } =
      utf8Encode "\x7b\"RTT\":16.029,\"RUG\":8.5,\"CTT\":8\x7d".toList := by
  decide

/-- C1 counterexample: `unpack(pack(...))` does not return the claimed
5-tuple `(version, msg_type, length, host_id, payload)`: it returns a
6-tuple whose second component is the host id (not the message type) and
which carries the header timestamp truncated to the minute. -/
theorem unpack_pack_not_five_components :
    (pack "abc1234".toList ⟨2025, 10, 12, 14, 30, 5, 0⟩ "S".toList [1, 2, 3]).bind unpack =
      .ok (1, "abc1234".toList, ⟨2025, 10, 12, 14, 30, 0, 0⟩, "S".toList, 3, [1, 2, 3]) ∧
    "abc1234".toList ≠ "S".toList := by
  exact ⟨by rfl, by decide⟩

/-- C2 counterexample: the header is 25 bytes, not the 13 bytes the
claimed layout (1 + 1 + 4 + 7) adds up to, and byte 1 of a packed frame
is the first host-id character (`'a'`), not the message type. -/
theorem header_layout_counterexample :
    HEADER_SIZE = 25 ∧ HEADER_SIZE ≠ 1 + 1 + 4 + 7 ∧
    pack "abc1234".toList ⟨2025, 10, 12, 14, 30, 0, 0⟩ "S".toList [] =
      .ok ([1] ++ "abc1234202510121430S".toList.map Char.toNat ++ [0, 0, 0, 0]) ∧
    (([1] ++ "abc1234202510121430S".toList.map Char.toNat ++ [0, 0, 0, 0]).drop 1).take 1 =
      ['a'.toNat] ∧
    'a'.toNat ≠ 'S'.toNat := by
  refine ⟨rfl, by decide, by decide, by decide, by decide⟩

/-- C5 counterexample: an ACK-typed frame carrying the non-empty payload
`b'x'` is decoded by `parse_packet` as a successful acknowledgement (the
ACK branch returns `None` without examining the payload); decoding does
not fail with any payload-mismatch error. -/
theorem parse_packet_ack_nonempty_ok :
    (pack "abc1234".toList ⟨2025, 10, 12, 14, 30, 0, 0⟩ "A".toList [120]).bind parse_packet =
      .ok .ackNone ∧ ([120] : List ℕ) ≠ [] := by
  exact ⟨by decide, by decide⟩

/-! ## Request helpers -/

theorem splitSpace_ne_nil (s : List Char) : splitSpace s ≠ [] := by
  cases s with
  | nil => simp [splitSpace]
  | cons c rest =>
    unfold splitSpace
    by_cases hc : c = ' '
    · simp [hc]
    · rw [if_neg hc]
      cases h : splitSpace rest with
      | nil => simp
      | cons t ts => simp

theorem aliasesToFields_length (ts ns : List (List Char))
    (h : aliasesToFields ts = .ok ns) : ns.length = ts.length := by
  induction ts generalizing ns with
  | nil =>
    unfold aliasesToFields at h
    cases h
    rfl
  | cons a rest ih =>
    unfold aliasesToFields at h
    cases hA : Status.aliasToField a with
    | none => rw [hA] at h; cases h
    | some n =>
      rw [hA] at h
      cases hR : aliasesToFields rest with
      | error e => rw [hR] at h; cases h
      | ok ns' =>
        rw [hR] at h
        cases h
        simp [ih ns' hR]

theorem mkRequest_ok (ns : List (List Char)) (r : Request)
    (h : mkRequest ns = .ok r) : r = ⟨ns⟩ := by
  unfold mkRequest at h
  cases hf : (ns.find? (fun n => (Status.FIELD_ALIAS.lookup n).isNone)) with
  | none => rw [hf] at h; cases h; rfl
  | some bad => rw [hf] at h; cases h

/-- C10: the empty `Request` serializes to the empty byte sequence, but
`Request.deserialize` of the empty byte sequence fails with
`UnknownAliasError('')` (splitting the empty payload yields the single
empty token, which is not an alias); consequently every successfully
deserialized `Request` has at least one field, so no empty `Request` is
ever received over the wire. -/
theorem request_empty_not_on_wire :
    Request.serialize ⟨[]⟩ = [] ∧
    Request.deserialize [] = .error (.unknownAlias []) ∧
    ∀ bs r, Request.deserialize bs = .ok r → 1 ≤ r.requested_fields.length := by
  refine ⟨rfl, by decide, ?_⟩
  intro bs r h
  unfold Request.deserialize at h
  cases hD : utf8Decode bs with
  | none => rw [hD] at h; cases h
  | some text =>
    rw [hD] at h
    simp only [bind, Except.bind] at h
    cases hA : aliasesToFields (splitSpace (stripChars text)) with
    | error e => rw [hA] at h; cases h
    | ok ns =>
      rw [hA] at h
      have hr := mkRequest_ok ns r h
      subst hr
      have hlen := aliasesToFields_length _ _ hA
      have hne := splitSpace_ne_nil (stripChars text)
      simp only [hlen]
      cases hS : splitSpace (stripChars text) with
      | nil => exact absurd hS hne
      | cons t ts => simp [hS]

/-- C10 witness: `b'RUG'` deserializes to a one-field request, whose
field count is indeed at least one. -/
theorem request_empty_not_on_wire_witness :
    Request.deserialize (utf8Encode "RUG".toList) = .ok ⟨["ram_usage".toList]⟩ ∧
    1 ≤ (Request.mk ["ram_usage".toList]).requested_fields.length :=
  ⟨by decide,
   request_empty_not_on_wire.2.2 (utf8Encode "RUG".toList) ⟨["ram_usage".toList]⟩ (by decide)⟩

/-! ## Unknown-alias rejection in `Status.deserialize` -/

theorem buildKwargs_unknown (entries : List (List Char × JValue)) (kw : StatusKwargs)
    (h : ∃ k ∈ entries.map Prod.fst, Status.aliasToField k = none) :
    ∃ k, Status.aliasToField k = none ∧ k ∈ entries.map Prod.fst ∧
      buildKwargs entries kw = .error (.unknownAlias k) := by
  induction entries generalizing kw with
  | nil => simp at h
  | cons e rest ih =>
    obtain ⟨k, v⟩ := e
    cases hA : Status.aliasToField k with
    | none =>
      refine ⟨k, hA, ?_, ?_⟩
      · simp only [List.map_cons]
        exact List.mem_cons_self _ _
      · unfold buildKwargs
        rw [hA]
    | some name =>
      obtain ⟨k', hk'mem, hk'none⟩ := h
      simp only [List.map_cons, List.mem_cons] at hk'mem
      have hk'rest : k' ∈ rest.map Prod.fst := by
        rcases hk'mem with rfl | hmem
        · rw [hA] at hk'none; cases hk'none
        · exact hmem
      obtain ⟨k'', h1, h2, h3⟩ := ih (setKwarg name v kw) ⟨k', hk'rest, hk'none⟩
      refine ⟨k'', h1, ?_, ?_⟩
      · simp only [List.map_cons]
        exact List.mem_cons_of_mem _ h2
      · unfold buildKwargs
        rw [hA]
        exact h3

/-- C7: any parsed `Status` payload containing a key absent from the
alias table makes `Status.deserialize` fail with `UnknownAliasError`
naming such a key (the first one, in document order) — unknown keys are
never silently dropped; in particular the payload `{"ZZZ":1}` fails with
`UnknownAlias("ZZZ")`. -/
theorem status_deserialize_unknown_alias :
    (∀ entries : List (List Char × JValue),
      (∃ k ∈ entries.map Prod.fst, Status.aliasToField k = none) →
      ∃ k, Status.aliasToField k = none ∧ k ∈ entries.map Prod.fst ∧
        Status.deserializeData entries = .error (.unknownAlias k)) ∧
    Status.deserialize (utf8Encode "\x7b\"ZZZ\":1\x7d".toList) =
      .error (.unknownAlias "ZZZ".toList) := by
  constructor
  · intro entries h
    obtain ⟨k, h1, h2, h3⟩ := buildKwargs_unknown entries {} h
    refine ⟨k, h1, h2, ?_⟩
    unfold Status.deserializeData
    rw [h3]
    rfl
  · decide

/-- C7 witness: the parsed form of `{"ZZZ":1}` contains the unknown key
`ZZZ`, and decoding it fails with `UnknownAlias` naming it. -/
theorem status_deserialize_unknown_alias_witness :
    ∃ k, Status.aliasToField k = none ∧
      k ∈ ([("ZZZ".toList, JValue.jint 1)].map Prod.fst) ∧
      Status.deserializeData [("ZZZ".toList, JValue.jint 1)] =
        .error (.unknownAlias k) :=
  status_deserialize_unknown_alias.1 _ ⟨"ZZZ".toList, by decide, by decide⟩

/-! ## Construction-time type checking (`__post_init__`) -/

theorem except_bind_ok {α β : Type} (a : α) (f : α → Except ProtoError β) :
    (Except.ok a >>= f) = f a := rfl

theorem except_bind_error {α β : Type} (e : ProtoError) (f : α → Except ProtoError β) :
    ((Except.error e : Except ProtoError α) >>= f) = Except.error e := rfl

theorem checkStr_cases (f : List Char) (v : Option JValue) :
    ((∃ x, checkStr f v = .ok x) ∧ jvalOkStr v = true) ∨
    (checkStr f v = .error (.typeMismatch f) ∧ jvalOkStr v = false) := by
  cases v with
  | none => exact Or.inl ⟨⟨none, rfl⟩, rfl⟩
  | some w =>
    cases w with
    | jnull => exact Or.inl ⟨⟨none, rfl⟩, rfl⟩
    | jstr s => exact Or.inl ⟨⟨some s, rfl⟩, rfl⟩
    | jint n => exact Or.inr ⟨rfl, rfl⟩
    | jfloat q => exact Or.inr ⟨rfl, rfl⟩

theorem checkFloat_cases (f : List Char) (v : Option JValue) :
    ((∃ x, checkFloat f v = .ok x) ∧ jvalOkFloat v = true) ∨
    (checkFloat f v = .error (.typeMismatch f) ∧ jvalOkFloat v = false) := by
  cases v with
  | none => exact Or.inl ⟨⟨none, rfl⟩, rfl⟩
  | some w =>
    cases w with
    | jnull => exact Or.inl ⟨⟨none, rfl⟩, rfl⟩
    | jfloat q => exact Or.inl ⟨⟨some q, rfl⟩, rfl⟩
    | jint n => exact Or.inr ⟨rfl, rfl⟩
    | jstr s => exact Or.inr ⟨rfl, rfl⟩

theorem checkInt_cases (f : List Char) (v : Option JValue) :
    ((∃ x, checkInt f v = .ok x) ∧ jvalOkInt v = true) ∨
    (checkInt f v = .error (.typeMismatch f) ∧ jvalOkInt v = false) := by
  cases v with
  | none => exact Or.inl ⟨⟨none, rfl⟩, rfl⟩
  | some w =>
    cases w with
    | jnull => exact Or.inl ⟨⟨none, rfl⟩, rfl⟩
    | jint n => exact Or.inl ⟨⟨some n, rfl⟩, rfl⟩
    | jfloat q => exact Or.inr ⟨rfl, rfl⟩
    | jstr s => exact Or.inr ⟨rfl, rfl⟩

/-- C6: constructing a `Status` succeeds exactly when every field value
matches its declared semantic type, and on any ill-typed field the
construction fails with `TypeMismatch` naming the first offending field
(in declaration order) — so `serialize` is never reached with an
ill-typed field. -/
theorem mkStatus_typecheck (kw : StatusKwargs) :
    ((mkStatus kw).isOk = statusKwargsOk kw) ∧
    (statusKwargsOk kw = false →
      ∃ f, firstIllTypedField kw = some f ∧ mkStatus kw = .error (.typeMismatch f)) := by
  unfold mkStatus
  rcases checkStr_cases "host_name".toList kw.host_name with ⟨⟨x1, hx1⟩, hb1⟩ | ⟨hx1, hb1⟩
  · rcases checkFloat_cases "ram_total".toList kw.ram_total with ⟨⟨x2, hx2⟩, hb2⟩ | ⟨hx2, hb2⟩
    · rcases checkFloat_cases "ram_usage".toList kw.ram_usage with ⟨⟨x3, hx3⟩, hb3⟩ | ⟨hx3, hb3⟩
      · rcases checkInt_cases "cpu_total".toList kw.cpu_total with ⟨⟨x4, hx4⟩, hb4⟩ | ⟨hx4, hb4⟩
        · rcases checkFloat_cases "cpu_usage".toList kw.cpu_usage with ⟨⟨x5, hx5⟩, hb5⟩ | ⟨hx5, hb5⟩
          · rcases checkFloat_cases "cpu_temperature".toList kw.cpu_temperature with
              ⟨⟨x6, hx6⟩, hb6⟩ | ⟨hx6, hb6⟩
            · rcases checkFloat_cases "disk_usage".toList kw.disk_usage with
                ⟨⟨x7, hx7⟩, hb7⟩ | ⟨hx7, hb7⟩
              · rcases checkFloat_cases "disk_total".toList kw.disk_total with
                  ⟨⟨x8, hx8⟩, hb8⟩ | ⟨hx8, hb8⟩
                · simp only [hx1, hx2, hx3, hx4, hx5, hx6, hx7, hx8, except_bind_ok]
                  constructor
                  · simp [statusKwargsOk, hb1, hb2, hb3, hb4, hb5, hb6, hb7, hb8, pure,
                      Except.pure, Except.isOk, Except.toBool]
                  · intro h
                    simp [statusKwargsOk, hb1, hb2, hb3, hb4, hb5, hb6, hb7, hb8] at h
                · simp only [hx1, hx2, hx3, hx4, hx5, hx6, hx7, hx8, except_bind_ok,
                    except_bind_error]
                  refine ⟨by simp [statusKwargsOk, hb8, Except.isOk, Except.toBool], fun _ => ⟨_, ?_, rfl⟩⟩
                  simp [firstIllTypedField, hb1, hb2, hb3, hb4, hb5, hb6, hb7, hb8]
              · simp only [hx1, hx2, hx3, hx4, hx5, hx6, hx7, except_bind_ok, except_bind_error]
                refine ⟨by simp [statusKwargsOk, hb7, Except.isOk, Except.toBool], fun _ => ⟨_, ?_, rfl⟩⟩
                simp [firstIllTypedField, hb1, hb2, hb3, hb4, hb5, hb6, hb7]
            · simp only [hx1, hx2, hx3, hx4, hx5, hx6, except_bind_ok, except_bind_error]
              refine ⟨by simp [statusKwargsOk, hb6, Except.isOk, Except.toBool], fun _ => ⟨_, ?_, rfl⟩⟩
              simp [firstIllTypedField, hb1, hb2, hb3, hb4, hb5, hb6]
          · simp only [hx1, hx2, hx3, hx4, hx5, except_bind_ok, except_bind_error]
            refine ⟨by simp [statusKwargsOk, hb5, Except.isOk, Except.toBool], fun _ => ⟨_, ?_, rfl⟩⟩
            simp [firstIllTypedField, hb1, hb2, hb3, hb4, hb5]
        · simp only [hx1, hx2, hx3, hx4, except_bind_ok, except_bind_error]
          refine ⟨by simp [statusKwargsOk, hb4, Except.isOk, Except.toBool], fun _ => ⟨_, ?_, rfl⟩⟩
          simp [firstIllTypedField, hb1, hb2, hb3, hb4]
      · simp only [hx1, hx2, hx3, except_bind_ok, except_bind_error]
        refine ⟨by simp [statusKwargsOk, hb3, Except.isOk, Except.toBool], fun _ => ⟨_, ?_, rfl⟩⟩
        simp [firstIllTypedField, hb1, hb2, hb3]
    · simp only [hx1, hx2, except_bind_ok, except_bind_error]
      refine ⟨by simp [statusKwargsOk, hb2, Except.isOk, Except.toBool], fun _ => ⟨_, ?_, rfl⟩⟩
      simp [firstIllTypedField, hb1, hb2]
  · simp only [hx1, except_bind_error]
    refine ⟨by simp [statusKwargsOk, hb1, Except.isOk, Except.toBool], fun _ => ⟨_, ?_, rfl⟩⟩
    simp [firstIllTypedField, hb1]

/-- C6 witness: `Status(ram_total="x")` — a text value in a float field —
fails at construction time with `TypeMismatch` on `ram_total`. -/
theorem mkStatus_typecheck_witness :
    ((mkStatus { ram_total := some (.jstr "x".toList) }).isOk =
      statusKwargsOk { ram_total := some (.jstr "x".toList) }) ∧
    ∃ f, firstIllTypedField { ram_total := some (.jstr "x".toList) } = some f ∧
      mkStatus { ram_total := some (.jstr "x".toList) } = .error (.typeMismatch f) :=
  ⟨(mkStatus_typecheck _).1, (mkStatus_typecheck _).2 (by decide)⟩

/-! ## Byte-level helper lemmas for the framer -/

theorem utf8EncodeChar_ascii (c : Char) (h : c.toNat < 128) : utf8EncodeChar c = [c.toNat] := by
  simp [utf8EncodeChar, h]

theorem utf8Encode_ascii (s : List Char) (h : ∀ c ∈ s, c.toNat < 128) :
    utf8Encode s = s.map Char.toNat := by
  induction s with
  | nil => rfl
  | cons c cs ih =>
    unfold utf8Encode
    rw [utf8EncodeChar_ascii c (h c (by simp)), ih (fun x hx => h x (by simp [hx]))]
    rfl

theorem utf8DecodeStep_ascii (b : ℕ) (bs : List ℕ) (h : b < 128) :
    utf8DecodeStep (b :: bs) = some (Char.ofNat b, bs) := by
  simp only [utf8DecodeStep]
  rw [if_pos h]

theorem utf8Decode_ascii (s : List Char) (h : ∀ c ∈ s, c.toNat < 128) :
    utf8Decode (s.map Char.toNat) = some s := by
  induction s with
  | nil => rfl
  | cons c cs ih =>
    rw [List.map_cons]
    unfold utf8Decode at ih ⊢
    simp only [List.length_cons, List.length_map] at ih ⊢
    unfold utf8DecodeAux
    rw [utf8DecodeStep_ascii c.toNat _ (h c (by simp))]
    simp only [Option.some_bind]
    rw [ih (fun x hx => h x (by simp [hx]))]
    simp [Char.ofNat_toNat]

theorem fitBytes_exact (n : ℕ) (bs : List ℕ) (h : bs.length = n) : fitBytes n bs = bs := by
  subst h
  simp [fitBytes]

theorem dropWhile_eq_self (p : Char → Bool) (l : List Char) (h : ∀ c ∈ l, p c = false) :
    l.dropWhile p = l := by
  cases l with
  | nil => rfl
  | cons a t => simp [List.dropWhile, h a (by simp)]

theorem stripChars_id (s : List Char) (h : ∀ c ∈ s, isPySpace c = false) :
    stripChars s = s := by
  unfold stripChars
  rw [dropWhile_eq_self _ s h,
    dropWhile_eq_self _ s.reverse (fun c hc => h c (List.mem_reverse.mp hc)),
    List.reverse_reverse]

theorem isPySpace_false (c : Char)
    (h : ¬ (c.toNat = 32 ∨ c.toNat = 9 ∨ c.toNat = 10 ∨ c.toNat = 13 ∨
      c.toNat = 11 ∨ c.toNat = 12)) : isPySpace c = false := by
  push_neg at h
  obtain ⟨h1, h2, h3, h4, h5, h6⟩ := h
  unfold isPySpace
  have e : ∀ d : Char, ∀ k : ℕ, d.toNat = k → ¬ c.toNat = k → (c == d) = false := by
    intro d k hd hk
    rw [beq_eq_false_iff_ne]
    intro hcd
    exact hk (by rw [hcd, hd])
  rw [e ' ' 32 rfl h1, e '\t' 9 rfl h2, e '\n' 10 rfl h3, e '\r' 13 rfl h4,
    e (Char.ofNat 11) 11 (toNat_ofNat_small 11 (by omega)) h5,
    e (Char.ofNat 12) 12 (toNat_ofNat_small 12 (by omega)) h6]
  rfl

theorem parseBE32_be32 (n : ℕ) (h : n < 4294967296) : parseBE32 (be32 n) = n := by
  simp only [parseBE32, be32, List.foldl]
  omega

theorem be32_length (n : ℕ) : (be32 n).length = 4 := rfl

/-! ## Timestamp format/parse lemmas -/

theorem daysInMonth_le (y m : ℕ) : daysInMonth y m ≤ 31 := by
  unfold daysInMonth
  split
  · split <;> omega
  · split <;> omega

theorem toNat_digitChar (n : ℕ) : (digitChar n).toNat = 48 + n % 10 :=
  toNat_ofNat_small _ (by omega)

theorem digitVal_digitChar (n : ℕ) : digitVal (digitChar n) = n % 10 := by
  unfold digitVal
  rw [toNat_digitChar]
  omega

theorem isDigitChar_digitChar (n : ℕ) : isDigitChar (digitChar n) = true := by
  unfold isDigitChar
  rw [decide_eq_true_iff, toNat_digitChar]
  omega

theorem digitChar_ascii (n : ℕ) : (digitChar n).toNat < 128 := by
  rw [toNat_digitChar]; omega

theorem digitChar_not_space (n : ℕ) : isPySpace (digitChar n) = false := by
  apply isPySpace_false
  rw [toNat_digitChar]
  omega

theorem formatTimestamp_length (t : PyDateTime) : (formatTimestamp t).length = 12 := by
  simp [formatTimestamp, pad4, pad2]

theorem formatTimestamp_ascii (t : PyDateTime) :
    ∀ c ∈ formatTimestamp t, c.toNat < 128 := by
  intro c hc
  simp only [formatTimestamp, pad4, pad2, List.cons_append, List.nil_append,
    List.mem_cons, List.not_mem_nil, or_false] at hc
  rcases hc with rfl | rfl | rfl | rfl | rfl | rfl | rfl | rfl | rfl | rfl | rfl | rfl <;>
    exact digitChar_ascii _

theorem parseTimestamp_formatTimestamp (t : PyDateTime) (h : t.valid) :
    parseTimestamp (formatTimestamp t) = .ok t.truncToMinute := by
  obtain ⟨h1, h2, h3, h4, h5, h6, h7, h8, h9, h10⟩ := h
  have e4 : digitsVal [digitChar (t.year / 1000), digitChar (t.year / 100),
      digitChar (t.year / 10), digitChar t.year] = t.year := by
    simp only [digitsVal, List.foldl, digitVal_digitChar]
    omega
  have e2 : ∀ n : ℕ, n ≤ 99 → digitsVal [digitChar (n / 10), digitChar n] = n := by
    intro n hn
    simp only [digitsVal, List.foldl, digitVal_digitChar]
    omega
  simp only [formatTimestamp, pad4, pad2, List.cons_append, List.nil_append]
  unfold parseTimestamp
  rw [if_pos (by simp [isDigitChar_digitChar])]
  simp only [List.take, List.drop]
  rw [e4, e2 t.month (by omega),
    e2 t.day (le_trans h6 ((daysInMonth_le t.year t.month).trans (by omega))),
    e2 t.hour (by omega), e2 t.minute (by omega)]
  rw [if_pos ⟨h1, h3, h4, h5, h6, h7, h8⟩]
  rfl

/-! ## The packed frame layout -/

theorem validHostId_spec (s : List Char) (h : validHostId s = true) :
    s.length = 7 ∧ ∀ c ∈ s, (97 ≤ c.toNat ∧ c.toNat ≤ 122) ∨ (48 ≤ c.toNat ∧ c.toNat ≤ 57) := by
  unfold validHostId at h
  rw [Bool.and_eq_true, beq_iff_eq, List.all_eq_true] at h
  exact ⟨h.1, fun c hc => of_decide_eq_true (h.2 c hc)⟩

theorem hostId_ascii (s : List Char) (h : validHostId s = true) :
    ∀ c ∈ s, c.toNat < 128 := by
  intro c hc
  rcases (validHostId_spec s h).2 c hc with ⟨_, h'⟩ | ⟨_, h'⟩ <;> omega

theorem hostId_nospace (s : List Char) (h : validHostId s = true) :
    ∀ c ∈ s, isPySpace c = false := by
  intro c hc
  apply isPySpace_false
  rcases (validHostId_spec s h).2 c hc with ⟨h', _⟩ | ⟨h', _⟩ <;> omega

theorem msgType_of_mem (m : List Char) (h : m ∈ MessageTypesValues) :
    m = ['S'] ∨ m = ['R'] ∨ m = ['A'] := by
  simpa [MessageTypesValues] using h

theorem msgType_pattern (m : List Char) (h : m ∈ MessageTypesValues) :
    validMsgTypePattern m = true := by
  rcases msgType_of_mem m h with rfl | rfl | rfl <;> decide

theorem msgType_length (m : List Char) (h : m ∈ MessageTypesValues) : m.length = 1 := by
  rcases msgType_of_mem m h with rfl | rfl | rfl <;> rfl

theorem msgType_ascii (m : List Char) (h : m ∈ MessageTypesValues) :
    ∀ c ∈ m, c.toNat < 128 := by
  rcases msgType_of_mem m h with rfl | rfl | rfl <;> decide

theorem msgType_nospace (m : List Char) (h : m ∈ MessageTypesValues) :
    ∀ c ∈ m, isPySpace c = false := by
  rcases msgType_of_mem m h with rfl | rfl | rfl <;> decide

theorem take_len_append {α : Type} (a b : List α) (n : ℕ) (h : a.length = n) :
    (a ++ b).take n = a := by
  subst h
  exact List.take_left a b

theorem drop_len_append {α : Type} (a b : List α) (n : ℕ) (h : a.length = n) :
    (a ++ b).drop n = b := by
  subst h
  exact List.drop_left a b

/-- The frame `pack` emits, under `pack`'s own validation: a 1-byte
version, the 7 host-id bytes, the 12 timestamp digits, the 1 message-type
byte, the 4-byte big-endian payload length, then the payload. -/
theorem pack_ok (hostId : List Char) (ts : PyDateTime) (msgType : List Char)
    (payload : List ℕ) (h1 : validHostId hostId = true) (h2 : msgType ∈ MessageTypesValues)
    (h4 : payload.length < 4294967296) :
    pack hostId ts msgType payload =
      .ok ([PROTOCOL_VERSION] ++ hostId.map Char.toNat ++
        (formatTimestamp ts).map Char.toNat ++ msgType.map Char.toNat ++
        be32 payload.length ++ payload) := by
  unfold pack
  rw [if_neg (by simp [h1]), if_neg (by simp [msgType_pattern msgType h2]),
    if_neg (not_not_intro h2), if_neg (by omega)]
  rw [utf8Encode_ascii hostId (hostId_ascii hostId h1),
    utf8Encode_ascii _ (formatTimestamp_ascii ts),
    utf8Encode_ascii msgType (msgType_ascii msgType h2)]
  rw [fitBytes_exact 7 _ (by simp [(validHostId_spec hostId h1).1]),
    fitBytes_exact 12 _ (by simp [formatTimestamp_length]),
    fitBytes_exact 1 _ (by simp [msgType_length msgType h2])]

/-- `unpack` of a frame with the layout `pack` emits recovers every
header field (the timestamp truncated to the minute) and the payload. -/
theorem unpack_frame (hostId : List Char) (ts : PyDateTime) (msgType : List Char)
    (payload : List ℕ) (h1 : validHostId hostId = true) (h2 : msgType ∈ MessageTypesValues)
    (h3 : ts.valid) (h4 : payload.length < 4294967296) :
    unpack ([PROTOCOL_VERSION] ++ (hostId.map Char.toNat ++
        ((formatTimestamp ts).map Char.toNat ++ (msgType.map Char.toNat ++
        (be32 payload.length ++ payload))))) =
      .ok (PROTOCOL_VERSION, hostId, ts.truncToMinute, msgType, payload.length, payload) := by
  have hA : (hostId.map Char.toNat).length = 7 := by
    simp [(validHostId_spec hostId h1).1]
  have hB : ((formatTimestamp ts).map Char.toNat).length = 12 := by
    simp [formatTimestamp_length]
  have hC : (msgType.map Char.toNat).length = 1 := by
    simp [msgType_length msgType h2]
  have hD : (be32 payload.length).length = 4 := be32_length _
  have hd1 : ([PROTOCOL_VERSION] ++ (hostId.map Char.toNat ++
      ((formatTimestamp ts).map Char.toNat ++ (msgType.map Char.toNat ++
      (be32 payload.length ++ payload))))).drop 1 =
      hostId.map Char.toNat ++ ((formatTimestamp ts).map Char.toNat ++
        (msgType.map Char.toNat ++ (be32 payload.length ++ payload))) :=
    drop_len_append _ _ 1 rfl
  have hd8 : ([PROTOCOL_VERSION] ++ (hostId.map Char.toNat ++
      ((formatTimestamp ts).map Char.toNat ++ (msgType.map Char.toNat ++
      (be32 payload.length ++ payload))))).drop 8 =
      (formatTimestamp ts).map Char.toNat ++
        (msgType.map Char.toNat ++ (be32 payload.length ++ payload)) := by
    rw [show [PROTOCOL_VERSION] ++ (hostId.map Char.toNat ++
        ((formatTimestamp ts).map Char.toNat ++ (msgType.map Char.toNat ++
        (be32 payload.length ++ payload)))) =
        ([PROTOCOL_VERSION] ++ hostId.map Char.toNat) ++
        ((formatTimestamp ts).map Char.toNat ++ (msgType.map Char.toNat ++
        (be32 payload.length ++ payload))) from by simp [List.append_assoc]]
    exact drop_len_append _ _ 8 (by simp [hA])
  have hd20 : ([PROTOCOL_VERSION] ++ (hostId.map Char.toNat ++
      ((formatTimestamp ts).map Char.toNat ++ (msgType.map Char.toNat ++
      (be32 payload.length ++ payload))))).drop 20 =
      msgType.map Char.toNat ++ (be32 payload.length ++ payload) := by
    rw [show [PROTOCOL_VERSION] ++ (hostId.map Char.toNat ++
        ((formatTimestamp ts).map Char.toNat ++ (msgType.map Char.toNat ++
        (be32 payload.length ++ payload)))) =
        ([PROTOCOL_VERSION] ++ hostId.map Char.toNat ++
          (formatTimestamp ts).map Char.toNat) ++
        (msgType.map Char.toNat ++ (be32 payload.length ++ payload)) from by
      simp [List.append_assoc]]
    exact drop_len_append _ _ 20 (by simp [hA, hB])
  have hd21 : ([PROTOCOL_VERSION] ++ (hostId.map Char.toNat ++
      ((formatTimestamp ts).map Char.toNat ++ (msgType.map Char.toNat ++
      (be32 payload.length ++ payload))))).drop 21 =
      be32 payload.length ++ payload := by
    rw [show [PROTOCOL_VERSION] ++ (hostId.map Char.toNat ++
        ((formatTimestamp ts).map Char.toNat ++ (msgType.map Char.toNat ++
        (be32 payload.length ++ payload)))) =
        ([PROTOCOL_VERSION] ++ hostId.map Char.toNat ++
          (formatTimestamp ts).map Char.toNat ++ msgType.map Char.toNat) ++
        (be32 payload.length ++ payload) from by simp [List.append_assoc]]
    exact drop_len_append _ _ 21 (by simp [hA, hB, hC])
  have hd25 : ([PROTOCOL_VERSION] ++ (hostId.map Char.toNat ++
      ((formatTimestamp ts).map Char.toNat ++ (msgType.map Char.toNat ++
      (be32 payload.length ++ payload))))).drop HEADER_SIZE = payload := by
    rw [show [PROTOCOL_VERSION] ++ (hostId.map Char.toNat ++
        ((formatTimestamp ts).map Char.toNat ++ (msgType.map Char.toNat ++
        (be32 payload.length ++ payload)))) =
        ([PROTOCOL_VERSION] ++ hostId.map Char.toNat ++
          (formatTimestamp ts).map Char.toNat ++ msgType.map Char.toNat ++
          be32 payload.length) ++ payload from by simp [List.append_assoc]]
    exact drop_len_append _ _ HEADER_SIZE (by simp [hA, hB, hC, hD, HEADER_SIZE])
  unfold unpack
  rw [if_neg (by
    simp [HEADER_SIZE, (validHostId_spec hostId h1).1, formatTimestamp_length,
      msgType_length msgType h2]
    omega)]
  rw [hd1, hd8, hd20, hd21, hd25]
  dsimp only []
  rw [take_len_append _ _ 7 hA, take_len_append _ _ 12 hB, take_len_append _ _ 1 hC,
    take_len_append _ _ 4 hD]
  rw [utf8Decode_ascii hostId (hostId_ascii hostId h1),
    utf8Decode_ascii _ (formatTimestamp_ascii ts),
    utf8Decode_ascii msgType (msgType_ascii msgType h2)]
  dsimp only []
  rw [parseTimestamp_formatTimestamp ts h3]
  dsimp only []
  rw [stripChars_id hostId (hostId_nospace hostId h1),
    stripChars_id msgType (msgType_nospace msgType h2)]
  rw [parseBE32_be32 _ h4]
  rw [List.take_length]
  rfl

theorem except_ok_bind {α β : Type} (a : α) (f : α → Except ProtoError β) :
    (Except.ok a : Except ProtoError α).bind f = f a := rfl

/-- C2 (amended): the header `pack` emits has the fixed layout 1-byte
version, 7-byte host id, 12-byte ASCII `YYYYMMDDHHmm` timestamp, 1-byte
message type, 4-byte big-endian payload length — 25 bytes in all; the
header does carry a timestamp. -/
theorem pack_header_layout (hostId : List Char) (ts : PyDateTime) (msgType : List Char)
    (payload : List ℕ) (h1 : validHostId hostId = true) (h2 : msgType ∈ MessageTypesValues)
    (h4 : payload.length < 4294967296) :
    pack hostId ts msgType payload =
      .ok ([PROTOCOL_VERSION] ++ hostId.map Char.toNat ++
        (formatTimestamp ts).map Char.toNat ++ msgType.map Char.toNat ++
        be32 payload.length ++ payload) ∧
    (hostId.map Char.toNat).length = 7 ∧
    ((formatTimestamp ts).map Char.toNat).length = 12 ∧
    (msgType.map Char.toNat).length = 1 ∧
    (be32 payload.length).length = 4 ∧
    HEADER_SIZE = 1 + 7 + 12 + 1 + 4 :=
  ⟨pack_ok hostId ts msgType payload h1 h2 h4,
   by simp [(validHostId_spec hostId h1).1],
   by simp [formatTimestamp_length],
   by simp [msgType_length msgType h2],
   be32_length _, rfl⟩

/-- C2 witness: the layout theorem applied at a concrete frame. -/
theorem pack_header_layout_witness :
    pack "abc1234".toList ⟨2025, 10, 12, 14, 30, 0, 0⟩ "S".toList [] =
      .ok ([PROTOCOL_VERSION] ++ "abc1234".toList.map Char.toNat ++
        (formatTimestamp ⟨2025, 10, 12, 14, 30, 0, 0⟩).map Char.toNat ++
        "S".toList.map Char.toNat ++ be32 (([] : List ℕ).length) ++ []) ∧
    ("abc1234".toList.map Char.toNat).length = 7 ∧
    ((formatTimestamp (⟨2025, 10, 12, 14, 30, 0, 0⟩ : PyDateTime)).map Char.toNat).length = 12 ∧
    ("S".toList.map Char.toNat).length = 1 ∧
    (be32 (([] : List ℕ).length)).length = 4 ∧
    HEADER_SIZE = 1 + 7 + 12 + 1 + 4 :=
  pack_header_layout "abc1234".toList ⟨2025, 10, 12, 14, 30, 0, 0⟩ "S".toList []
    (by decide) (by decide) (by decide)

/-- C1 (amended): for every valid host id, timestamp, message type in
the closed set, and payload that fits the length field, unpacking the
frame produced by `pack` returns the 6-tuple (protocol version, host id,
timestamp truncated to the minute, message type, payload length,
payload). -/
theorem unpack_pack_roundtrip (hostId : List Char) (ts : PyDateTime) (msgType : List Char)
    (payload : List ℕ) (h1 : validHostId hostId = true) (h2 : msgType ∈ MessageTypesValues)
    (h3 : ts.valid) (h4 : payload.length < 4294967296) :
    (pack hostId ts msgType payload).bind unpack =
      .ok (PROTOCOL_VERSION, hostId, ts.truncToMinute, msgType, payload.length, payload) := by
  rw [pack_ok hostId ts msgType payload h1 h2 h4, except_ok_bind]
  rw [show [PROTOCOL_VERSION] ++ hostId.map Char.toNat ++
      (formatTimestamp ts).map Char.toNat ++ msgType.map Char.toNat ++
      be32 payload.length ++ payload =
      [PROTOCOL_VERSION] ++ (hostId.map Char.toNat ++
        ((formatTimestamp ts).map Char.toNat ++ (msgType.map Char.toNat ++
        (be32 payload.length ++ payload)))) from by simp [List.append_assoc]]
  exact unpack_frame hostId ts msgType payload h1 h2 h3 h4

/-- C1 witness: the round trip at a concrete frame (note the seconds of
the timestamp are truncated away). -/
theorem unpack_pack_roundtrip_witness :
    (pack "abc1234".toList ⟨2025, 10, 12, 14, 30, 5, 0⟩ "S".toList [1, 2, 3]).bind unpack =
      .ok (PROTOCOL_VERSION, "abc1234".toList,
        PyDateTime.truncToMinute ⟨2025, 10, 12, 14, 30, 5, 0⟩, "S".toList, 3, [1, 2, 3]) :=
  unpack_pack_roundtrip "abc1234".toList ⟨2025, 10, 12, 14, 30, 5, 0⟩ "S".toList [1, 2, 3]
    (by decide) (by decide) (by decide) (by decide)

/-- C5 (amended): acknowledge packets are framed with the empty payload,
but the ACK branch of `parse_packet` accepts an ACK-typed frame with ANY
payload, returning the acknowledgement marker (`None`) without examining
the payload — a non-empty ACK payload is silently ignored, not rejected. -/
theorem ack_payload_ignored (hostId : List Char) (ts : PyDateTime) (payload : List ℕ)
    (h1 : validHostId hostId = true) (h3 : ts.valid) (h4 : payload.length < 4294967296) :
    create_acknowledge_packet hostId ts = pack hostId ts ['A'] [] ∧
    (pack hostId ts ['A'] payload).bind parse_packet = .ok .ackNone := by
  refine ⟨rfl, ?_⟩
  rw [pack_ok hostId ts ['A'] payload h1 (by decide) h4, except_ok_bind]
  unfold parse_packet
  rw [show [PROTOCOL_VERSION] ++ hostId.map Char.toNat ++
      (formatTimestamp ts).map Char.toNat ++ (['A'] : List Char).map Char.toNat ++
      be32 payload.length ++ payload =
      [PROTOCOL_VERSION] ++ (hostId.map Char.toNat ++
        ((formatTimestamp ts).map Char.toNat ++ ((['A'] : List Char).map Char.toNat ++
        (be32 payload.length ++ payload)))) from by simp [List.append_assoc]]
  rw [unpack_frame hostId ts ['A'] payload h1 (by decide) h3 h4]
  rfl

/-- C5 witness: a concrete ACK frame with payload `b'x'` parses to the
acknowledgement marker. -/
theorem ack_payload_ignored_witness :
    create_acknowledge_packet "abc1234".toList ⟨2025, 10, 12, 14, 30, 0, 0⟩ =
      pack "abc1234".toList ⟨2025, 10, 12, 14, 30, 0, 0⟩ ['A'] [] ∧
    (pack "abc1234".toList ⟨2025, 10, 12, 14, 30, 0, 0⟩ ['A'] [120]).bind parse_packet =
      .ok .ackNone :=
  ack_payload_ignored "abc1234".toList ⟨2025, 10, 12, 14, 30, 0, 0⟩ [120]
    (by decide) (by decide) (by decide)

/-! ## Request round-trip -/

theorem fieldName_cases (n : List Char) (h : (Status.FIELD_ALIAS.lookup n).isSome) :
    n = "host_name".toList ∨ n = "ram_total".toList ∨ n = "ram_usage".toList ∨
    n = "cpu_total".toList ∨ n = "cpu_usage".toList ∨ n = "cpu_temperature".toList ∨
    n = "disk_total".toList ∨ n = "disk_usage".toList := by
  simp only [Status.FIELD_ALIAS, List.lookup] at h
  split at h
  next heq => exact Or.inl (eq_of_beq heq)
  next =>
  split at h
  next heq => exact Or.inr (Or.inl (eq_of_beq heq))
  next =>
  split at h
  next heq => exact Or.inr (Or.inr (Or.inl (eq_of_beq heq)))
  next =>
  split at h
  next heq => exact Or.inr (Or.inr (Or.inr (Or.inl (eq_of_beq heq))))
  next =>
  split at h
  next heq => exact Or.inr (Or.inr (Or.inr (Or.inr (Or.inl (eq_of_beq heq)))))
  next =>
  split at h
  next heq => exact Or.inr (Or.inr (Or.inr (Or.inr (Or.inr (Or.inl (eq_of_beq heq))))))
  next =>
  split at h
  next heq => exact Or.inr (Or.inr (Or.inr (Or.inr (Or.inr (Or.inr (Or.inl (eq_of_beq heq)))))))
  next =>
  split at h
  next heq => exact Or.inr (Or.inr (Or.inr (Or.inr (Or.inr (Or.inr (Or.inr (eq_of_beq heq)))))))
  next => simp at h

theorem aliasToField_aliasOfD (n : List Char) (h : (Status.FIELD_ALIAS.lookup n).isSome) :
    Status.aliasToField (Status.aliasOfD n) = some n := by
  rcases fieldName_cases n h with rfl | rfl | rfl | rfl | rfl | rfl | rfl | rfl <;> decide

theorem aliasOfD_ne_nil (n : List Char) (h : (Status.FIELD_ALIAS.lookup n).isSome) :
    Status.aliasOfD n ≠ [] := by
  rcases fieldName_cases n h with rfl | rfl | rfl | rfl | rfl | rfl | rfl | rfl <;> decide

theorem aliasOfD_chars (n : List Char) (h : (Status.FIELD_ALIAS.lookup n).isSome) :
    ∀ c ∈ Status.aliasOfD n, isPySpace c = false ∧ c.toNat < 128 := by
  rcases fieldName_cases n h with rfl | rfl | rfl | rfl | rfl | rfl | rfl | rfl <;> decide

theorem mem_joinSpace (ts : List (List Char)) (c : Char) (hc : c ∈ joinSpace ts) :
    c = ' ' ∨ ∃ t ∈ ts, c ∈ t := by
  induction ts with
  | nil => simp [joinSpace] at hc
  | cons t rest ih =>
    cases rest with
    | nil =>
      simp only [joinSpace] at hc
      exact Or.inr ⟨t, by simp, hc⟩
    | cons t2 rest2 =>
      simp only [joinSpace, List.mem_append, List.mem_cons] at hc
      rcases hc with hc | rfl | hc
      · exact Or.inr ⟨t, by simp, hc⟩
      · exact Or.inl rfl
      · rcases ih hc with h' | ⟨t', ht', hct'⟩
        · exact Or.inl h'
        · exact Or.inr ⟨t', by simp [ht'], hct'⟩

theorem joinSpace_head (t : List Char) (ts : List (List Char)) (ht : t ≠ []) :
    ∃ c r, joinSpace (t :: ts) = c :: r ∧ c ∈ t := by
  cases t with
  | nil => exact absurd rfl ht
  | cons c rest =>
    cases ts with
    | nil => exact ⟨c, rest, rfl, by simp⟩
    | cons t2 rest2 => exact ⟨c, rest ++ ' ' :: joinSpace (t2 :: rest2), rfl, by simp⟩

theorem joinSpace_reverse_head (ts : List (List Char)) (hne : ts ≠ [])
    (h : ∀ t ∈ ts, t ≠ []) :
    ∃ c r, (joinSpace ts).reverse = c :: r ∧ ∃ t ∈ ts, c ∈ t := by
  induction ts with
  | nil => exact absurd rfl hne
  | cons t rest ih =>
    cases rest with
    | nil =>
      obtain ⟨c, r, hr⟩ := List.exists_cons_of_ne_nil
        (by simpa using List.reverse_eq_nil_iff.not.mpr (by simpa using h t (by simp)) :
          t.reverse ≠ [])
      refine ⟨c, r, by simpa [joinSpace] using hr, t, by simp, ?_⟩
      rw [← List.mem_reverse, hr]
      simp
    | cons t2 rest2 =>
      obtain ⟨c, r, hcr, t', ht', hct'⟩ := ih (by simp) (fun x hx => h x (by simp [hx]))
      refine ⟨c, r ++ [' '] ++ t.reverse, ?_, t', by simp [ht'], hct'⟩
      simp only [joinSpace, List.reverse_append, List.reverse_cons]
      rw [hcr]
      simp

theorem stripChars_joinSpace (ts : List (List Char)) (hne : ts ≠ [])
    (htok : ∀ t ∈ ts, t ≠ []) (hch : ∀ t ∈ ts, ∀ c ∈ t, isPySpace c = false) :
    stripChars (joinSpace ts) = joinSpace ts := by
  obtain ⟨t, rest, rfl⟩ := List.exists_cons_of_ne_nil hne
  obtain ⟨c, r, hcr, hct⟩ := joinSpace_head t rest (htok t (by simp))
  obtain ⟨c', r', hcr', t', ht', hct'⟩ := joinSpace_reverse_head (t :: rest) (by simp) htok
  unfold stripChars
  rw [hcr, List.dropWhile_cons_of_neg (by simp [hch t (by simp) c hct]), ← hcr]
  rw [hcr', List.dropWhile_cons_of_neg (by simp [hch t' ht' c' hct']), ← hcr']
  exact List.reverse_reverse _

theorem splitSpace_nosep (t : List Char) (h : ∀ c ∈ t, ¬ c = ' ') :
    splitSpace t = [t] := by
  induction t with
  | nil => rfl
  | cons c r ih =>
    conv_lhs => rw [splitSpace.eq_def]
    dsimp only []
    rw [if_neg (h c (by simp)), ih (fun x hx => h x (by simp [hx]))]

theorem splitSpace_append_sep (t X : List Char) (h : ∀ c ∈ t, ¬ c = ' ') :
    splitSpace (t ++ ' ' :: X) = t :: splitSpace X := by
  induction t with
  | nil => simp [splitSpace]
  | cons c r ih =>
    simp only [List.cons_append]
    conv_lhs => rw [splitSpace.eq_def]
    dsimp only []
    rw [if_neg (h c (by simp)), ih (fun x hx => h x (by simp [hx]))]

theorem splitSpace_joinSpace (ts : List (List Char)) (hne : ts ≠ [])
    (h : ∀ t ∈ ts, ∀ c ∈ t, ¬ c = ' ') :
    splitSpace (joinSpace ts) = ts := by
  induction ts with
  | nil => exact absurd rfl hne
  | cons t rest ih =>
    cases rest with
    | nil => simpa [joinSpace] using splitSpace_nosep t (h t (by simp))
    | cons t2 rest2 =>
      show splitSpace (t ++ ' ' :: joinSpace (t2 :: rest2)) = t :: t2 :: rest2
      rw [splitSpace_append_sep t _ (h t (by simp))]
      rw [ih (by simp) (fun x hx => h x (by simp [hx]))]

theorem aliasesToFields_map (names : List (List Char))
    (h : ∀ n ∈ names, (Status.FIELD_ALIAS.lookup n).isSome) :
    aliasesToFields (names.map Status.aliasOfD) = .ok names := by
  induction names with
  | nil => rfl
  | cons n rest ih =>
    rw [List.map_cons]
    unfold aliasesToFields
    rw [aliasToField_aliasOfD n (h n (by simp)), ih (fun x hx => h x (by simp [hx]))]
    rfl

theorem mkRequest_all_valid (names : List (List Char))
    (h : ∀ n ∈ names, (Status.FIELD_ALIAS.lookup n).isSome) :
    mkRequest names = .ok ⟨names⟩ := by
  unfold mkRequest
  rw [List.find?_eq_none.mpr (fun n hn hpn => by
    rw [Option.isNone_iff_eq_none] at hpn
    have := h n hn
    rw [hpn] at this
    simp at this)]

/-- C4: for every non-empty valid `Request`, deserializing its
serialization returns a `Request` with exactly the same ordered
field-name list (duplicates and order preserved). -/
theorem request_roundtrip (names : List (List Char)) (h1 : names ≠ [])
    (h2 : ∀ n ∈ names, (Status.FIELD_ALIAS.lookup n).isSome) :
    Request.deserialize (Request.serialize ⟨names⟩) = .ok ⟨names⟩ := by
  have htok : ∀ t ∈ names.map Status.aliasOfD, t ≠ [] := by
    intro t ht
    obtain ⟨n, hn, rfl⟩ := List.mem_map.mp ht
    exact aliasOfD_ne_nil n (h2 n hn)
  have hch : ∀ t ∈ names.map Status.aliasOfD, ∀ c ∈ t, isPySpace c = false := by
    intro t ht c hc
    obtain ⟨n, hn, rfl⟩ := List.mem_map.mp ht
    exact (aliasOfD_chars n (h2 n hn) c hc).1
  have hascii : ∀ c ∈ joinSpace (names.map Status.aliasOfD), c.toNat < 128 := by
    intro c hc
    rcases mem_joinSpace _ c hc with rfl | ⟨t, ht, hct⟩
    · decide
    · obtain ⟨n, hn, rfl⟩ := List.mem_map.mp ht
      exact (aliasOfD_chars n (h2 n hn) c hct).2
  have hnosep : ∀ t ∈ names.map Status.aliasOfD, ∀ c ∈ t, ¬ c = ' ' := by
    intro t ht c hc hsp
    have := hch t ht c hc
    rw [hsp] at this
    simp [isPySpace] at this
  have hmapne : names.map Status.aliasOfD ≠ [] := by
    simpa using h1
  unfold Request.serialize Request.deserialize
  rw [utf8Encode_ascii _ hascii, utf8Decode_ascii _ hascii]
  dsimp only []
  rw [stripChars_joinSpace _ hmapne htok hch]
  rw [splitSpace_joinSpace _ hmapne hnosep]
  rw [aliasesToFields_map names h2]
  rw [show ∀ (a : List (List Char)) (f : List (List Char) → Except ProtoError Request),
      (Except.ok a : Except ProtoError (List (List Char))) >>= f = f a from fun _ _ => rfl]
  exact mkRequest_all_valid names h2

/-- C4 witness: the spec scenario `Request(["ram_usage","cpu_usage"])`
(serialized as `b"RUG CUG"`) round-trips exactly. -/
theorem request_roundtrip_witness :
    Request.deserialize (Request.serialize ⟨["ram_usage".toList, "cpu_usage".toList]⟩) =
      .ok ⟨["ram_usage".toList, "cpu_usage".toList]⟩ :=
  request_roundtrip ["ram_usage".toList, "cpu_usage".toList] (by decide) (by decide)

/-! ## Status round-trip: the data level -/

set_option maxHeartbeats 4000000 in
/-- The decode loop inverts the `data` dict `serialize` builds, field by
field, reconstructing the status with its floats rounded. -/
theorem deserializeData_serializeData (s : Status) :
    Status.deserializeData (Status.serializeData s) = .ok (roundStatus3 s) := by
  rcases s with ⟨hn, rt, ru, ct, cu, ctp, du, dt⟩
  cases hn <;> cases rt <;> cases ru <;> cases ct <;> cases cu <;> cases ctp <;>
    cases du <;> cases dt <;> rfl

/-! ## Digit-string lemmas -/

theorem natDigitsAux_append (fuel : ℕ) : ∀ (n : ℕ) (acc : List Char), n < fuel →
    natDigitsAux fuel n acc = natDigitsAux fuel n [] ++ acc := by
  induction fuel with
  | zero => intro n acc h; omega
  | succ f ih =>
    intro n acc h
    unfold natDigitsAux
    by_cases h10 : n < 10
    · simp [h10]
    · rw [if_neg h10, if_neg h10]
      rw [ih (n / 10) (digitChar (n % 10) :: acc) (by omega),
        ih (n / 10) [digitChar (n % 10)] (by omega)]
      simp

theorem natDigitsAux_digits (fuel : ℕ) : ∀ (n : ℕ) (acc : List Char),
    (∀ c ∈ acc, isDigitChar c = true) →
    ∀ c ∈ natDigitsAux fuel n acc, isDigitChar c = true := by
  induction fuel with
  | zero => intro n acc hacc; exact hacc
  | succ f ih =>
    intro n acc hacc c hc
    unfold natDigitsAux at hc
    by_cases h10 : n < 10
    · rw [if_pos h10] at hc
      rcases List.mem_cons.mp hc with rfl | hc
      · exact isDigitChar_digitChar n
      · exact hacc c hc
    · rw [if_neg h10] at hc
      refine ih (n / 10) _ ?_ c hc
      intro x hx
      rcases List.mem_cons.mp hx with rfl | hx
      · exact isDigitChar_digitChar _
      · exact hacc x hx

theorem natToChars_digits (n : ℕ) : ∀ c ∈ natToChars n, isDigitChar c = true :=
  natDigitsAux_digits (n + 1) n [] (by simp)

theorem digitsVal_natDigitsAux (fuel : ℕ) : ∀ n : ℕ, n < fuel →
    digitsVal (natDigitsAux fuel n []) = n := by
  induction fuel with
  | zero => intro n h; omega
  | succ f ih =>
    intro n h
    unfold natDigitsAux
    by_cases h10 : n < 10
    · rw [if_pos h10]
      simp only [digitsVal, List.foldl, digitVal_digitChar]
      omega
    · rw [if_neg h10]
      rw [natDigitsAux_append f (n / 10) [digitChar (n % 10)] (by omega)]
      unfold digitsVal
      rw [List.foldl_append]
      have := ih (n / 10) (by omega)
      unfold digitsVal at this
      rw [this]
      simp only [List.foldl, digitVal_digitChar]
      omega

theorem digitsVal_natToChars (n : ℕ) : digitsVal (natToChars n) = n :=
  digitsVal_natDigitsAux (n + 1) n (by omega)

theorem natDigitsAux_cons (fuel n : ℕ) (acc : List Char) (hf : 1 ≤ fuel ∨ acc ≠ []) :
    natDigitsAux fuel n acc ≠ [] := by
  induction fuel generalizing n acc with
  | zero =>
    unfold natDigitsAux
    rcases hf with h | h
    · omega
    · exact h
  | succ f ih =>
    unfold natDigitsAux
    by_cases h10 : n < 10
    · simp [h10]
    · rw [if_neg h10]
      exact ih (n / 10) _ (Or.inr (by simp))

theorem natToChars_ne_nil (n : ℕ) : natToChars n ≠ [] :=
  natDigitsAux_cons (n + 1) n [] (Or.inl (by omega))

theorem takeDigitsFrom_of_not_digit (rest : List Char)
    (hrest : ∀ c t, rest = c :: t → isDigitChar c = false) :
    takeDigitsFrom rest = ([], rest) := by
  cases rest with
  | nil => rfl
  | cons c t =>
    unfold takeDigitsFrom
    rw [hrest c t rfl]
    simp

theorem takeDigitsFrom_append (ds rest : List Char)
    (hds : ∀ c ∈ ds, isDigitChar c = true)
    (hrest : ∀ c t, rest = c :: t → isDigitChar c = false) :
    takeDigitsFrom (ds ++ rest) = (ds, rest) := by
  induction ds with
  | nil => simpa using takeDigitsFrom_of_not_digit rest hrest
  | cons d ds' ih =>
    rw [List.cons_append]
    unfold takeDigitsFrom
    rw [hds d (by simp)]
    rw [ih (fun c hc => hds c (by simp [hc]))]
    simp

/-! ## Number parsing round-trip -/

theorem isDigitChar_spec (c : Char) (h : isDigitChar c = true) :
    48 ≤ c.toNat ∧ c.toNat ≤ 57 := by
  unfold isDigitChar at h
  exact of_decide_eq_true h

theorem digit_ne (c : Char) (h : isDigitChar c = true) (d : Char)
    (hd : d.toNat < 48 ∨ 57 < d.toNat) : ¬ c = d := by
  intro heq
  have := isDigitChar_spec c h
  rw [heq] at this
  omega

theorem parseNumber_int (n : ℤ) (rest : List Char)
    (hrest : ∀ c t, rest = c :: t → isDigitChar c = false ∧ ¬ c = '.') :
    parseNumber (intToChars n ++ rest) = some (.jint n, rest) := by
  have hdigits := natToChars_digits n.natAbs
  have htake : takeDigitsFrom (natToChars n.natAbs ++ rest) = (natToChars n.natAbs, rest) :=
    takeDigitsFrom_append _ _ hdigits (fun c t ht => (hrest c t ht).1)
  have hne : natToChars n.natAbs ≠ [] := natToChars_ne_nil _
  have hdotrest : ¬ rest.head? = some '.' := by
    cases rest with
    | nil => simp
    | cons c t =>
      simp only [List.head?_cons, Option.some.injEq]
      exact (hrest c t rfl).2
  by_cases hneg : n < 0
  · have : intToChars n = '-' :: natToChars n.natAbs := by
      unfold intToChars
      rw [if_pos hneg]
    rw [this]
    unfold parseNumber
    simp only [List.cons_append, List.head?_cons, Option.some.injEq, eq_self_iff_true,
      if_true, List.tail_cons]
    rw [htake]
    simp only [List.isEmpty_eq_true]
    rw [if_neg hne, if_neg hdotrest]
    rw [digitsVal_natToChars]
    rw [show (-(n.natAbs : ℤ)) = n by omega]
  · have : intToChars n = natToChars n.natAbs := by
      unfold intToChars
      rw [if_neg hneg]
    rw [this]
    obtain ⟨c, r, hcr⟩ := List.exists_cons_of_ne_nil hne
    have hcd : isDigitChar c = true := hdigits c (by rw [hcr]; simp)
    have hcne : ¬ c = '-' := digit_ne c hcd '-' (by decide)
    unfold parseNumber
    rw [hcr, List.cons_append]
    simp only [List.head?_cons, Option.some.injEq]
    rw [if_neg hcne, ← List.cons_append, ← hcr]
    rw [htake]
    simp only [List.isEmpty_eq_true]
    rw [if_neg hne, if_neg hdotrest, if_neg hcne]
    rw [digitsVal_natToChars]
    rw [show ((n.natAbs : ℤ)) = n by omega]

theorem fracChars_digits (r : ℕ) : ∀ c ∈ fracChars r, isDigitChar c = true := by
  unfold fracChars
  split
  · intro c hc
    rcases List.mem_cons.mp hc with rfl | hc
    · exact isDigitChar_digitChar _
    rcases List.mem_cons.mp hc with rfl | hc
    · exact isDigitChar_digitChar _
    rcases List.mem_cons.mp hc with rfl | hc
    · exact isDigitChar_digitChar _
    · simp at hc
  split
  · intro c hc
    rcases List.mem_cons.mp hc with rfl | hc
    · exact isDigitChar_digitChar _
    rcases List.mem_cons.mp hc with rfl | hc
    · exact isDigitChar_digitChar _
    · simp at hc
  split
  · intro c hc
    rcases List.mem_cons.mp hc with rfl | hc
    · exact isDigitChar_digitChar _
    · simp at hc
  · intro c hc
    rcases List.mem_cons.mp hc with rfl | hc
    · exact isDigitChar_digitChar 0
    · simp at hc

theorem fracChars_ne_nil (r : ℕ) : fracChars r ≠ [] := by
  unfold fracChars
  split
  · simp
  split
  · simp
  split
  · simp
  · simp

theorem fracChars_val (r : ℕ) (hr : r < 1000) :
    (digitsVal (fracChars r) : ℚ) / (10 : ℚ) ^ (fracChars r).length = (r : ℚ) / 1000 := by
  unfold fracChars
  split
  next h1 =>
    simp only [digitsVal, List.foldl, digitVal_digitChar, List.length_cons,
      List.length_nil]
    rw [show ((0 * 10 + r / 100 % 10) * 10 + r / 10 % 10) * 10 + r % 10 = r by omega]
    norm_num
  split
  next h1 h2 =>
    simp only [digitsVal, List.foldl, digitVal_digitChar, List.length_cons,
      List.length_nil]
    rw [show (0 * 10 + r / 100 % 10) * 10 + r / 10 % 10 = r / 10 by omega]
    rw [div_eq_div_iff (by norm_num) (by norm_num)]
    have : r / 10 * 1000 = r * 100 := by omega
    exact_mod_cast congrArg (fun x : ℕ => (x : ℚ)) this
  split
  next h1 h2 h3 =>
    simp only [digitsVal, List.foldl, digitVal_digitChar, List.length_cons,
      List.length_nil]
    rw [show 0 * 10 + r / 100 % 10 = r / 100 by omega]
    rw [div_eq_div_iff (by norm_num) (by norm_num)]
    have : r / 100 * 1000 = r * 10 := by omega
    exact_mod_cast congrArg (fun x : ℕ => (x : ℚ)) this
  next h1 h2 h3 =>
    simp only [digitsVal, List.foldl, digitVal_digitChar, List.length_cons,
      List.length_nil]
    have : r = 0 := by omega
    subst this
    rw [show digitVal '0' = 0 from rfl]
    norm_num

theorem parseNumber_printFloat (q : ℚ) (hden : q.den ∣ 1000) (rest : List Char)
    (hrest : ∀ c t, rest = c :: t → isDigitChar c = false) :
    parseNumber (printFloat q ++ rest) = some (.jfloat q, rest) := by
  have hdvd : q.den ∣ q.num.natAbs * 1000 := hden.mul_left _
  have hMden : q.num.natAbs * 1000 / q.den * q.den = q.num.natAbs * 1000 :=
    Nat.div_mul_cancel hdvd
  have hden0 : 0 < q.den := q.pos
  have hfrac : q.num.natAbs * 1000 / q.den % 1000 < 1000 := Nat.mod_lt _ (by norm_num)
  have hdigits := natToChars_digits (q.num.natAbs * 1000 / q.den / 1000)
  have hne : natToChars (q.num.natAbs * 1000 / q.den / 1000) ≠ [] := natToChars_ne_nil _
  have hfne : fracChars (q.num.natAbs * 1000 / q.den % 1000) ≠ [] := fracChars_ne_nil _
  have htake1 : takeDigitsFrom (natToChars (q.num.natAbs * 1000 / q.den / 1000) ++
      ('.' :: (fracChars (q.num.natAbs * 1000 / q.den % 1000) ++ rest))) =
      (natToChars (q.num.natAbs * 1000 / q.den / 1000),
        '.' :: (fracChars (q.num.natAbs * 1000 / q.den % 1000) ++ rest)) :=
    takeDigitsFrom_append _ _ hdigits (by
      intro c t ht
      rw [List.cons.injEq] at ht
      rw [← ht.1]
      decide)
  have htake2 : takeDigitsFrom (fracChars (q.num.natAbs * 1000 / q.den % 1000) ++ rest) =
      (fracChars (q.num.natAbs * 1000 / q.den % 1000), rest) :=
    takeDigitsFrom_append _ _ (fracChars_digits _) hrest
  have hvalue : (digitsVal (natToChars (q.num.natAbs * 1000 / q.den / 1000)) : ℚ) +
      (digitsVal (fracChars (q.num.natAbs * 1000 / q.den % 1000)) : ℚ) /
        (10 : ℚ) ^ (fracChars (q.num.natAbs * 1000 / q.den % 1000)).length =
      ((q.num.natAbs : ℚ)) / (q.den : ℚ) := by
    rw [digitsVal_natToChars, fracChars_val _ hfrac]
    have h1 : ((q.num.natAbs * 1000 / q.den / 1000 : ℕ) : ℚ) +
        ((q.num.natAbs * 1000 / q.den % 1000 : ℕ) : ℚ) / 1000 =
        ((q.num.natAbs * 1000 / q.den : ℕ) : ℚ) / 1000 := by
      field_simp
      have e1 : q.num.natAbs * 1000 / q.den / 1000 * 1000 +
          q.num.natAbs * 1000 / q.den % 1000 = q.num.natAbs * 1000 / q.den := by omega
      have e2 : (q.num.natAbs * 1000 / q.den / 1000 * 1000 +
          q.num.natAbs * 1000 / q.den % 1000) * (q.den * 1000) =
          q.num.natAbs * 1000 * 1000 := by
        rw [e1, ← mul_assoc, hMden]
      exact_mod_cast e2
    have h2 : ((q.num.natAbs * 1000 / q.den : ℕ) : ℚ) / 1000 =
        ((q.num.natAbs : ℚ)) / (q.den : ℚ) := by
      rw [div_eq_div_iff (by norm_num) (by exact_mod_cast hden0.ne.symm :
        (q.den : ℚ) ≠ 0)]
      exact_mod_cast hMden
    rw [h1, h2]
  by_cases hsgn : q.num < 0
  · unfold printFloat
    dsimp only []
    rw [if_pos hsgn]
    rw [show (['-'] ++ natToChars (q.num.natAbs * 1000 / q.den / 1000) ++
        '.' :: fracChars (q.num.natAbs * 1000 / q.den % 1000)) ++ rest =
        '-' :: (natToChars (q.num.natAbs * 1000 / q.den / 1000) ++
          ('.' :: (fracChars (q.num.natAbs * 1000 / q.den % 1000) ++ rest))) from by simp]
    unfold parseNumber
    simp only [List.head?_cons, Option.some.injEq, eq_self_iff_true, if_true,
      List.tail_cons]
    rw [htake1]
    rw [if_neg (by simp [hne])]
    rw [if_pos (by simp)]
    simp only [List.tail_cons]
    rw [htake2]
    rw [if_neg (by simp [hfne])]
    rw [hvalue]
    have habs : ((q.num.natAbs : ℚ)) = -(q.num : ℚ) := by
      rw [Int.cast_natAbs]
      exact_mod_cast abs_of_neg hsgn
    rw [habs, neg_div, neg_neg, Rat.num_div_den]
  · unfold printFloat
    dsimp only []
    rw [if_neg hsgn]
    obtain ⟨c, r, hcr⟩ := List.exists_cons_of_ne_nil hne
    have hcd : isDigitChar c = true := hdigits c (by rw [hcr]; simp)
    have hcne : ¬ c = '-' := digit_ne c hcd '-' (by decide)
    rw [show ([] ++ natToChars (q.num.natAbs * 1000 / q.den / 1000) ++
        '.' :: fracChars (q.num.natAbs * 1000 / q.den % 1000)) ++ rest =
        natToChars (q.num.natAbs * 1000 / q.den / 1000) ++
          ('.' :: (fracChars (q.num.natAbs * 1000 / q.den % 1000) ++ rest)) from by simp]
    unfold parseNumber
    rw [hcr, List.cons_append]
    simp only [List.head?_cons, Option.some.injEq]
    rw [if_neg hcne, if_neg hcne, ← List.cons_append, ← hcr]
    rw [htake1]
    rw [if_neg (by simp [hne])]
    rw [if_pos (by simp)]
    simp only [List.tail_cons]
    rw [htake2]
    rw [if_neg (by simp [hfne])]
    rw [hvalue]
    have habs : ((q.num.natAbs : ℚ)) = (q.num : ℚ) := by
      rw [Int.cast_natAbs]
      exact_mod_cast abs_of_nonneg (not_lt.mp hsgn)
    rw [habs, Rat.num_div_den]

/-! ## JSON string escaping round-trip -/

theorem toNat_hexDigitChar (n : ℕ) :
    (hexDigitChar n).toNat = if n % 16 < 10 then 48 + n % 16 else 87 + n % 16 := by
  unfold hexDigitChar
  by_cases h : n % 16 < 10
  · rw [if_pos h, if_pos h]
    exact toNat_ofNat_small _ (by omega)
  · rw [if_neg h, if_neg h]
    exact toNat_ofNat_small _ (by omega)

theorem hexCharVal_hexDigitChar (n : ℕ) : hexCharVal (hexDigitChar n) = some (n % 16) := by
  unfold hexCharVal
  rw [toNat_hexDigitChar]
  by_cases h : n % 16 < 10
  · rw [if_pos h]
    rw [if_pos (by omega)]
    congr 1
    omega
  · rw [if_neg h]
    rw [if_neg (by omega), if_pos (by omega)]
    congr 1
    omega

theorem hex4Val_hex4Chars (v : ℕ) (h : v < 0x10000) :
    hex4Val (hexDigitChar (v / 0x1000)) (hexDigitChar (v / 0x100))
      (hexDigitChar (v / 0x10)) (hexDigitChar v) = some v := by
  unfold hex4Val
  rw [hexCharVal_hexDigitChar, hexCharVal_hexDigitChar, hexCharVal_hexDigitChar,
    hexCharVal_hexDigitChar]
  simp only [Option.bind_eq_bind, Option.some_bind, Option.pure_def, Option.some.injEq]
  omega

theorem char_toNat_valid (c : Char) :
    c.toNat < 0xD800 ∨ (0xDFFF < c.toNat ∧ c.toNat < 0x110000) := c.valid

theorem take_four {α : Type} (a b c d : α) (l : List α) :
    (a :: b :: c :: d :: l).take 4 = [a, b, c, d] := rfl

theorem drop_four {α : Type} (a b c d : α) (l : List α) :
    (a :: b :: c :: d :: l).drop 4 = l := rfl

theorem take_two {α : Type} (a b : α) (l : List α) :
    (a :: b :: l).take 2 = [a, b] := rfl

theorem drop_two {α : Type} (a b : α) (l : List α) :
    (a :: b :: l).drop 2 = l := rfl

theorem jstrEsc_short (e : Char) (ch : Char) (rest2 : List Char)
    (he : ¬ e = 'u') (h : shortUnescape e = some ch) :
    jstrEsc (e :: rest2) = some (ch, rest2) := by
  simp only [jstrEsc]
  rw [if_neg he, h]
  rfl

theorem jstrEsc_u (a b c' d : Char) (rest3 : List Char) (v : ℕ)
    (hv : hex4Val a b c' d = some v) (hr : v < 0xD800 ∨ 0xE000 ≤ v) :
    jstrEsc ('u' :: a :: b :: c' :: d :: rest3) = some (Char.ofNat v, rest3) := by
  simp only [jstrEsc, if_true]
  rw [take_four]
  dsimp only []
  rw [hv]
  dsimp only []
  rw [if_pos hr, drop_four]

theorem jstrEsc_upair (a b c' d e' f g h : Char) (rest4 : List Char) (v w : ℕ)
    (hv : hex4Val a b c' d = some v) (hw : hex4Val e' f g h = some w)
    (hnr : ¬ (v < 0xD800 ∨ 0xE000 ≤ v)) (hlt : v < 0xDC00)
    (hwr : 0xDC00 ≤ w ∧ w < 0xE000) :
    jstrEsc ('u' :: a :: b :: c' :: d :: '\\' :: 'u' :: e' :: f :: g :: h :: rest4) =
      some (Char.ofNat (0x10000 + (v - 0xD800) * 0x400 + (w - 0xDC00)), rest4) := by
  simp only [jstrEsc, if_true]
  rw [take_four]
  dsimp only []
  rw [hv]
  dsimp only []
  rw [if_neg hnr, if_pos hlt, drop_four, take_two, if_pos rfl, drop_two, take_four]
  dsimp only []
  rw [hw]
  dsimp only []
  rw [if_pos hwr, drop_four]

theorem jstrEsc_bmp (t : ℕ) (hr : t < 0xD800 ∨ 0xE000 ≤ t) (ht : t < 0x10000)
    (rest3 : List Char) :
    jstrEsc ('u' :: (hex4Chars t ++ rest3)) = some (Char.ofNat t, rest3) := by
  simp only [hex4Chars, List.cons_append, List.nil_append]
  exact jstrEsc_u _ _ _ _ _ _ (hex4Val_hex4Chars t ht) hr

set_option maxRecDepth 8000 in
theorem jstrEsc_astral (t : ℕ) (h1 : 0x10000 ≤ t) (h2 : t < 0x110000) (rest4 : List Char) :
    jstrEsc ('u' :: (hex4Chars (0xD800 + (t - 0x10000) / 0x400) ++
        ('\\' :: ('u' :: (hex4Chars (0xDC00 + (t - 0x10000) % 0x400) ++ rest4))))) =
      some (Char.ofNat t, rest4) := by
  simp only [hex4Chars, List.cons_append, List.nil_append]
  rw [jstrEsc_upair _ _ _ _ _ _ _ _ rest4 _ _
    (hex4Val_hex4Chars _ (by omega)) (hex4Val_hex4Chars _ (by omega))
    (by omega) (by omega) ⟨by omega, by omega⟩,
    show 0x10000 + (0xD800 + (t - 0x10000) / 0x400 - 0xD800) * 0x400 +
      (0xDC00 + (t - 0x10000) % 0x400 - 0xDC00) = t from by omega]

theorem parseJStringAux_quote (fuel : ℕ) (acc rest : List Char) :
    parseJStringAux (fuel + 1) acc ('"' :: rest) = some (acc.reverse, rest) := by
  simp only [parseJStringAux, if_true]

theorem parseJStringAux_backslash (fuel : ℕ) (acc rest : List Char) (ch : Char)
    (rest2 : List Char) (h : jstrEsc rest = some (ch, rest2)) :
    parseJStringAux (fuel + 1) acc ('\\' :: rest) =
      parseJStringAux fuel (ch :: acc) rest2 := by
  simp only [parseJStringAux, if_true]
  rw [if_neg (by decide : ¬ ('\\' : Char) = '"'), h]

theorem parseJStringAux_raw (fuel : ℕ) (acc : List Char) (c : Char) (rest : List Char)
    (h1 : ¬ c = '"') (h2 : ¬ c = '\\') (h3 : 0x20 ≤ c.toNat) :
    parseJStringAux (fuel + 1) acc (c :: rest) = parseJStringAux fuel (c :: acc) rest := by
  simp only [parseJStringAux]
  rw [if_neg h1, if_neg h2, if_pos h3]

theorem parseJStringAux_escapeChars (s : List Char) : ∀ (fuel : ℕ) (acc rest : List Char),
    s.length < fuel →
    parseJStringAux fuel acc (escapeChars s ++ '"' :: rest) =
      some (acc.reverse ++ s, rest) := by
  induction s with
  | nil =>
    intro fuel acc rest hf
    obtain ⟨n, rfl⟩ : ∃ n, fuel = n + 1 := ⟨fuel - 1, by omega⟩
    rw [show escapeChars [] = [] from rfl, List.nil_append, parseJStringAux_quote]
    simp
  | cons c s' ih =>
    intro fuel acc rest hf
    obtain ⟨n, rfl⟩ : ∃ n, fuel = n + 1 := ⟨fuel - 1, by omega⟩
    have hf' : s'.length < n := by
      simp only [List.length_cons] at hf
      omega
    rw [show escapeChars (c :: s') = escapeChar c ++ escapeChars s' from rfl]
    unfold escapeChar
    by_cases h1 : c = '\\'
    · subst h1
      rw [if_pos rfl]
      simp only [List.cons_append, List.nil_append, List.append_assoc]
      rw [parseJStringAux_backslash n acc _ '\\' _
        (jstrEsc_short '\\' '\\' _ (by decide) (by decide))]
      rw [ih n ('\\' :: acc) rest hf']
      simp
    rw [if_neg h1]
    by_cases h2 : c = '"'
    · subst h2
      rw [if_pos rfl]
      simp only [List.cons_append, List.nil_append, List.append_assoc]
      rw [parseJStringAux_backslash n acc _ '"' _
        (jstrEsc_short '"' '"' _ (by decide) (by decide))]
      rw [ih n ('"' :: acc) rest hf']
      simp
    rw [if_neg h2]
    by_cases h3 : c = Char.ofNat 8
    · subst h3
      rw [if_pos rfl]
      simp only [List.cons_append, List.nil_append, List.append_assoc]
      rw [parseJStringAux_backslash n acc _ (Char.ofNat 8) _
        (jstrEsc_short 'b' (Char.ofNat 8) _ (by decide) (by decide))]
      rw [ih n (Char.ofNat 8 :: acc) rest hf']
      simp
    rw [if_neg h3]
    by_cases h4 : c = Char.ofNat 9
    · subst h4
      rw [if_pos rfl]
      simp only [List.cons_append, List.nil_append, List.append_assoc]
      rw [parseJStringAux_backslash n acc _ (Char.ofNat 9) _
        (jstrEsc_short 't' (Char.ofNat 9) _ (by decide) (by decide))]
      rw [ih n (Char.ofNat 9 :: acc) rest hf']
      simp
    rw [if_neg h4]
    by_cases h5 : c = Char.ofNat 10
    · subst h5
      rw [if_pos rfl]
      simp only [List.cons_append, List.nil_append, List.append_assoc]
      rw [parseJStringAux_backslash n acc _ (Char.ofNat 10) _
        (jstrEsc_short 'n' (Char.ofNat 10) _ (by decide) (by decide))]
      rw [ih n (Char.ofNat 10 :: acc) rest hf']
      simp
    rw [if_neg h5]
    by_cases h6 : c = Char.ofNat 12
    · subst h6
      rw [if_pos rfl]
      simp only [List.cons_append, List.nil_append, List.append_assoc]
      rw [parseJStringAux_backslash n acc _ (Char.ofNat 12) _
        (jstrEsc_short 'f' (Char.ofNat 12) _ (by decide) (by decide))]
      rw [ih n (Char.ofNat 12 :: acc) rest hf']
      simp
    rw [if_neg h6]
    by_cases h7 : c = Char.ofNat 13
    · subst h7
      rw [if_pos rfl]
      simp only [List.cons_append, List.nil_append, List.append_assoc]
      rw [parseJStringAux_backslash n acc _ (Char.ofNat 13) _
        (jstrEsc_short 'r' (Char.ofNat 13) _ (by decide) (by decide))]
      rw [ih n (Char.ofNat 13 :: acc) rest hf']
      simp
    rw [if_neg h7]
    by_cases h8 : 0x20 ≤ c.toNat ∧ c.toNat ≤ 0x7E
    · rw [if_pos h8]
      simp only [List.cons_append, List.nil_append]
      rw [parseJStringAux_raw n acc c _ h2 h1 h8.1]
      rw [ih n (c :: acc) rest hf']
      simp
    rw [if_neg h8]
    by_cases h9 : c.toNat < 0x10000
    · rw [if_pos h9]
      have hr : c.toNat < 0xD800 ∨ 0xE000 ≤ c.toNat := by
        rcases char_toNat_valid c with h | h
        · exact Or.inl h
        · exact Or.inr (by omega)
      simp only [List.cons_append, List.append_assoc]
      rw [parseJStringAux_backslash n acc _ _ _ (jstrEsc_bmp c.toNat hr h9 _)]
      rw [Char.ofNat_toNat, ih n (c :: acc) rest hf']
      simp
    · rw [if_neg h9]
      have hlt : c.toNat < 0x110000 := by
        rcases char_toNat_valid c with h | h
        · omega
        · exact h.2
      simp only [List.cons_append, List.append_assoc]
      rw [parseJStringAux_backslash n acc _ _ _
        (jstrEsc_astral c.toNat (by omega) hlt _)]
      rw [Char.ofNat_toNat, ih n (c :: acc) rest hf']
      simp

/-! ## Scalar round-trip -/

theorem escapeChar_length_pos (c : Char) : 0 < (escapeChar c).length := by
  unfold escapeChar
  repeat' split
  all_goals simp [hex4Chars]

theorem escapeChars_length_ge (s : List Char) : s.length ≤ (escapeChars s).length := by
  induction s with
  | nil => simp [escapeChars]
  | cons c s' ih =>
    simp only [escapeChars, List.length_append, List.length_cons]
    have := escapeChar_length_pos c
    omega

theorem natToChars_head (n : ℕ) :
    ∃ c0 t0, natToChars n = c0 :: t0 ∧ isDigitChar c0 = true := by
  cases h : natToChars n with
  | nil => exact absurd h (natToChars_ne_nil n)
  | cons c0 t0 =>
    refine ⟨c0, t0, rfl, natToChars_digits n c0 ?_⟩
    rw [h]
    exact List.mem_cons_self _ _

theorem intToChars_head (i : ℤ) :
    ∃ c0 t0, intToChars i = c0 :: t0 ∧ (c0 = '-' ∨ isDigitChar c0 = true) := by
  obtain ⟨c0, t0, hc, hd⟩ := natToChars_head i.natAbs
  unfold intToChars
  by_cases h : i < 0
  · exact ⟨'-', natToChars i.natAbs, by rw [if_pos h], Or.inl rfl⟩
  · exact ⟨c0, t0, by rw [if_neg h, hc], Or.inr hd⟩

theorem printFloat_head (q : ℚ) :
    ∃ c0 t0, printFloat q = c0 :: t0 ∧ (c0 = '-' ∨ isDigitChar c0 = true) := by
  obtain ⟨c0, t0, hc, hd⟩ := natToChars_head (q.num.natAbs * 1000 / q.den / 1000)
  unfold printFloat
  by_cases h : q.num < 0
  · rw [if_pos h]
    exact ⟨'-', _, rfl, Or.inl rfl⟩
  · rw [if_neg h]
    refine ⟨c0, t0 ++ '.' :: fracChars (q.num.natAbs * 1000 / q.den % 1000), ?_, Or.inr hd⟩
    dsimp only []
    rw [List.nil_append, hc, List.cons_append]

theorem parseScalar_number (c0 : Char) (t0 : List Char)
    (hc0 : c0 = '-' ∨ isDigitChar c0 = true) :
    parseScalar (c0 :: t0) = parseNumber (c0 :: t0) := by
  unfold parseScalar
  have h1 : ¬ (c0 :: t0).head? = some '"' := by
    simp only [List.head?_cons, Option.some.injEq]
    rcases hc0 with h | h
    · subst h
      decide
    · exact digit_ne c0 h '"' (by decide)
  have h2 : ¬ (c0 :: t0).take 4 = "null".toList := by
    rw [show (c0 :: t0).take 4 = c0 :: t0.take 3 from rfl,
      show ("null".toList : List Char) = ['n', 'u', 'l', 'l'] from rfl]
    simp only [List.cons.injEq, not_and]
    intro heq
    exfalso
    rcases hc0 with h | h
    · rw [heq] at h
      exact absurd h (by decide)
    · exact absurd heq (digit_ne c0 h 'n' (by decide))
  rw [if_neg h1, if_neg h2]

theorem parseScalar_printJValue (v : JValue) (rest : List Char)
    (hden : ∀ q, v = .jfloat q → q.den ∣ 1000)
    (hrest : ∀ c t, rest = c :: t → isDigitChar c = false ∧ ¬ c = '.') :
    parseScalar (printJValue v ++ rest) = some (v, rest) := by
  cases v with
  | jnull =>
    rw [show printJValue .jnull = ['n', 'u', 'l', 'l'] from rfl]
    unfold parseScalar
    simp only [List.cons_append, List.nil_append, List.head?_cons]
    rw [if_neg (by decide : ¬ (some 'n' = some '"')), take_four,
      if_pos (by decide : (['n', 'u', 'l', 'l'] : List Char) = "null".toList), drop_four]
  | jstr str =>
    rw [show printJValue (.jstr str) ++ rest = '"' :: (escapeChars str ++ '"' :: rest) from by
      simp [printJValue, printJString]]
    unfold parseScalar
    simp only [List.head?_cons, if_true]
    simp only [List.tail_cons, List.length_cons]
    have hfuel : str.length < (escapeChars str ++ '"' :: rest).length + 1 + 1 := by
      have := escapeChars_length_ge str
      simp only [List.length_append, List.length_cons]
      omega
    rw [parseJStringAux_escapeChars str _ [] rest hfuel]
    simp
  | jint n =>
    rw [show printJValue (.jint n) = intToChars n from rfl]
    obtain ⟨c0, t0, hc, hd⟩ := intToChars_head n
    rw [hc, List.cons_append, parseScalar_number c0 (t0 ++ rest) hd,
      ← List.cons_append, ← hc]
    exact parseNumber_int n rest hrest
  | jfloat q =>
    rw [show printJValue (.jfloat q) = printFloat q from rfl]
    obtain ⟨c0, t0, hc, hd⟩ := printFloat_head q
    rw [hc, List.cons_append, parseScalar_number c0 (t0 ++ rest) hd,
      ← List.cons_append, ← hc]
    exact parseNumber_printFloat q (hden q rfl) rest (fun c t ht => (hrest c t ht).1)

/-! ## Members round-trip -/

theorem parseMembers_one (kv : List Char × JValue) (sep : Char) (tail : List Char)
    (fuel : ℕ)
    (hden : ∀ q, kv.2 = .jfloat q → q.den ∣ 1000)
    (hsep : isDigitChar sep = false ∧ ¬ sep = '.') :
    parseMembers (fuel + 1) (printEntry kv ++ sep :: tail) =
      (if (sep :: tail).head? = some ',' then
        match parseMembers fuel tail with
        | some (ms, r5) => some ((kv.1, kv.2) :: ms, r5)
        | none => none
      else if (sep :: tail).head? = some '\x7d' then some ([(kv.1, kv.2)], tail)
      else none) := by
  rw [show printEntry kv ++ sep :: tail =
      '"' :: (escapeChars kv.1 ++ '"' :: (':' :: (printJValue kv.2 ++ sep :: tail))) from by
    simp [printEntry, printJString]]
  simp only [parseMembers]
  have hfuel : kv.1.length <
      (escapeChars kv.1 ++ '"' :: (':' :: (printJValue kv.2 ++ sep :: tail))).length + 1 := by
    have := escapeChars_length_ge kv.1
    simp only [List.length_append, List.length_cons]
    omega
  rw [parseJStringAux_escapeChars kv.1 _ [] _ hfuel]
  dsimp only []
  rw [if_pos (by rw [List.head?_cons])]
  simp only [List.tail_cons]
  rw [parseScalar_printJValue kv.2 (sep :: tail) hden
    (fun c t ht => by
      rw [List.cons.injEq] at ht
      exact ht.1 ▸ hsep)]
  dsimp only [List.reverse_nil, List.nil_append, List.tail_cons]

theorem parseMembers_printEntries (entries : List (List Char × JValue)) :
    ∀ (fuel : ℕ) (rest : List Char), entries.length < fuel → entries ≠ [] →
    (∀ kv ∈ entries, ∀ q, kv.2 = .jfloat q → q.den ∣ 1000) →
    parseMembers fuel (printEntries entries ++ '\x7d' :: rest) = some (entries, rest) := by
  induction entries with
  | nil => intro fuel rest _ hne _; exact absurd rfl hne
  | cons kv kvs ih =>
    intro fuel rest hf _ hwf
    obtain ⟨n, rfl⟩ : ∃ n, fuel = n + 1 := ⟨fuel - 1, by omega⟩
    have hdenkv : ∀ q, kv.2 = .jfloat q → q.den ∣ 1000 :=
      fun q hq => hwf kv (List.mem_cons_self _ _) q hq
    cases kvs with
    | nil =>
      rw [show printEntries [kv] = printEntry kv from rfl]
      rw [parseMembers_one kv '\x7d' rest n hdenkv (by decide)]
      rw [if_neg (by rw [List.head?_cons]; decide), if_pos (by rw [List.head?_cons])]
    | cons kv2 kvs2 =>
      rw [show printEntries (kv :: kv2 :: kvs2) = printEntry kv ++ ',' :: printEntries (kv2 :: kvs2)
        from rfl]
      rw [List.append_assoc, List.cons_append]
      rw [parseMembers_one kv ',' (printEntries (kv2 :: kvs2) ++ '\x7d' :: rest) n hdenkv
        (by decide)]
      rw [if_pos (by rw [List.head?_cons])]
      rw [ih n rest (by simp only [List.length_cons] at hf ⊢; omega) (by simp)
        (fun e he q hq => hwf e (List.mem_cons_of_mem _ he) q hq)]

theorem printEntry_length_pos (kv : List Char × JValue) : 0 < (printEntry kv).length := by
  simp only [printEntry, printJString, List.length_append, List.length_cons]
  omega

theorem printEntries_length_ge (entries : List (List Char × JValue)) :
    entries.length ≤ (printEntries entries).length := by
  induction entries with
  | nil => simp [printEntries]
  | cons kv kvs ih =>
    cases kvs with
    | nil =>
      simp only [List.length_cons, List.length_nil]
      rw [show printEntries [kv] = printEntry kv from rfl]
      exact printEntry_length_pos kv
    | cons kv2 kvs2 =>
      rw [show printEntries (kv :: kv2 :: kvs2) =
        printEntry kv ++ ',' :: printEntries (kv2 :: kvs2) from rfl]
      simp only [List.length_cons, List.length_append] at *
      have := printEntry_length_pos kv
      omega

theorem jsonParse_jsonDumps (entries : List (List Char × JValue))
    (hwf : ∀ kv ∈ entries, ∀ q, kv.2 = .jfloat q → q.den ∣ 1000) :
    jsonParse (jsonDumps entries) = some entries := by
  cases entries with
  | nil => rfl
  | cons kv kvs =>
    rw [show jsonDumps (kv :: kvs) = '\x7b' :: (printEntries (kv :: kvs) ++ ['\x7d'])
      from rfl]
    simp only [jsonParse]
    rw [if_neg (fun h => by
      have hl := congrArg List.length h
      have := printEntries_length_ge (kv :: kvs)
      simp only [List.length_append, List.length_cons, List.length_nil] at hl this
      omega)]
    have hfl : (kv :: kvs).length < (printEntries (kv :: kvs) ++ ['\x7d']).length + 1 := by
      have := printEntries_length_ge (kv :: kvs)
      simp only [List.length_append, List.length_cons, List.length_nil] at *
      omega
    rw [parseMembers_printEntries (kv :: kvs) _ [] hfl (by simp) hwf]
    rfl

/-! ## The full `Status` codec round-trip -/

theorem round3_den_dvd (q : ℚ) : (round3 q).den ∣ 1000 := by
  unfold round3
  exact_mod_cast Rat.den_dvd (roundHalfEvenScaled q.num q.den) 1000

theorem hexDigitChar_ascii (n : ℕ) : (hexDigitChar n).toNat < 128 := by
  rw [toNat_hexDigitChar]
  split <;> omega

theorem hex4Chars_ascii (v : ℕ) : ∀ x ∈ hex4Chars v, x.toNat < 128 := by
  intro x hx
  simp only [hex4Chars, List.mem_cons, List.not_mem_nil, or_false] at hx
  rcases hx with rfl | rfl | rfl | rfl
  all_goals exact hexDigitChar_ascii _

theorem escapeChar_ascii (c : Char) : ∀ x ∈ escapeChar c, x.toNat < 128 := by
  intro x hx
  unfold escapeChar at hx
  split at hx
  · simp only [List.mem_cons, List.not_mem_nil, or_false] at hx
    rcases hx with rfl | rfl <;> decide
  split at hx
  · simp only [List.mem_cons, List.not_mem_nil, or_false] at hx
    rcases hx with rfl | rfl <;> decide
  split at hx
  · simp only [List.mem_cons, List.not_mem_nil, or_false] at hx
    rcases hx with rfl | rfl <;> decide
  split at hx
  · simp only [List.mem_cons, List.not_mem_nil, or_false] at hx
    rcases hx with rfl | rfl <;> decide
  split at hx
  · simp only [List.mem_cons, List.not_mem_nil, or_false] at hx
    rcases hx with rfl | rfl <;> decide
  split at hx
  · simp only [List.mem_cons, List.not_mem_nil, or_false] at hx
    rcases hx with rfl | rfl <;> decide
  split at hx
  · simp only [List.mem_cons, List.not_mem_nil, or_false] at hx
    rcases hx with rfl | rfl <;> decide
  split at hx
  · simp only [List.mem_cons, List.not_mem_nil, or_false] at hx
    subst hx
    omega
  split at hx
  · rcases List.mem_cons.mp hx with rfl | h
    · decide
    rcases List.mem_cons.mp h with rfl | h2
    · decide
    · exact hex4Chars_ascii _ x h2
  · rcases List.mem_append.mp hx with h | h
    · rcases List.mem_cons.mp h with rfl | h2
      · decide
      rcases List.mem_cons.mp h2 with rfl | h3
      · decide
      · exact hex4Chars_ascii _ x h3
    · rcases List.mem_cons.mp h with rfl | h2
      · decide
      rcases List.mem_cons.mp h2 with rfl | h3
      · decide
      · exact hex4Chars_ascii _ x h3

theorem escapeChars_ascii (str : List Char) : ∀ x ∈ escapeChars str, x.toNat < 128 := by
  induction str with
  | nil => intro x hx; cases hx
  | cons c cs ih =>
    intro x hx
    rw [show escapeChars (c :: cs) = escapeChar c ++ escapeChars cs from rfl] at hx
    rcases List.mem_append.mp hx with h | h
    · exact escapeChar_ascii c x h
    · exact ih x h

theorem digit_lists_ascii (l : List Char) (h : ∀ c ∈ l, isDigitChar c = true) :
    ∀ x ∈ l, x.toNat < 128 := by
  intro x hx
  have := isDigitChar_spec x (h x hx)
  omega

theorem printJValue_ascii (v : JValue) : ∀ x ∈ printJValue v, x.toNat < 128 := by
  intro x hx
  cases v with
  | jnull =>
    rw [show printJValue .jnull = ['n', 'u', 'l', 'l'] from rfl] at hx
    simp only [List.mem_cons, List.not_mem_nil, or_false] at hx
    rcases hx with rfl | rfl | rfl | rfl <;> decide
  | jstr str =>
    rw [show printJValue (.jstr str) = '"' :: (escapeChars str ++ ['"']) from rfl] at hx
    rcases List.mem_cons.mp hx with rfl | h
    · decide
    rcases List.mem_append.mp h with h2 | h2
    · exact escapeChars_ascii str x h2
    rcases List.mem_cons.mp h2 with rfl | h3
    · decide
    · cases h3
  | jint n =>
    rw [show printJValue (.jint n) = intToChars n from rfl] at hx
    unfold intToChars at hx
    split at hx
    · rcases List.mem_cons.mp hx with rfl | h
      · decide
      · exact digit_lists_ascii _ (natToChars_digits _) x h
    · exact digit_lists_ascii _ (natToChars_digits _) x hx
  | jfloat q =>
    rw [show printJValue (.jfloat q) = printFloat q from rfl] at hx
    unfold printFloat at hx
    dsimp only [] at hx
    rcases List.mem_append.mp hx with h | h
    · rcases List.mem_append.mp h with h2 | h2
      · split at h2
        · rcases List.mem_cons.mp h2 with rfl | h3
          · decide
          · cases h3
        · cases h2
      · exact digit_lists_ascii _ (natToChars_digits _) x h2
    · rcases List.mem_cons.mp h with rfl | h2
      · decide
      · exact digit_lists_ascii _ (fracChars_digits _) x h2

theorem printEntry_ascii (kv : List Char × JValue) : ∀ x ∈ printEntry kv, x.toNat < 128 := by
  intro x hx
  rw [show printEntry kv = ('"' :: (escapeChars kv.1 ++ ['"'])) ++ ':' :: printJValue kv.2
    from rfl] at hx
  rcases List.mem_append.mp hx with h | h
  · rcases List.mem_cons.mp h with rfl | h2
    · decide
    rcases List.mem_append.mp h2 with h3 | h3
    · exact escapeChars_ascii kv.1 x h3
    rcases List.mem_cons.mp h3 with rfl | h4
    · decide
    · cases h4
  · rcases List.mem_cons.mp h with rfl | h2
    · decide
    · exact printJValue_ascii kv.2 x h2

theorem printEntries_ascii (entries : List (List Char × JValue)) :
    ∀ x ∈ printEntries entries, x.toNat < 128 := by
  induction entries with
  | nil => intro x hx; cases hx
  | cons kv kvs ih =>
    intro x hx
    cases kvs with
    | nil =>
      rw [show printEntries [kv] = printEntry kv from rfl] at hx
      exact printEntry_ascii kv x hx
    | cons kv2 kvs2 =>
      rw [show printEntries (kv :: kv2 :: kvs2) =
        printEntry kv ++ ',' :: printEntries (kv2 :: kvs2) from rfl] at hx
      rcases List.mem_append.mp hx with h | h
      · exact printEntry_ascii kv x h
      rcases List.mem_cons.mp h with rfl | h2
      · decide
      · exact ih x h2

theorem jsonDumps_ascii (entries : List (List Char × JValue)) :
    ∀ x ∈ jsonDumps entries, x.toNat < 128 := by
  intro x hx
  rw [show jsonDumps entries = '\x7b' :: (printEntries entries ++ ['\x7d']) from rfl] at hx
  rcases List.mem_cons.mp hx with rfl | h
  · decide
  rcases List.mem_append.mp h with h2 | h2
  · exact printEntries_ascii entries x h2
  rcases List.mem_cons.mp h2 with rfl | h3
  · decide
  · cases h3

theorem mem_optEntry {kv : List Char × JValue} {name : List Char} {v : Option JValue}
    (h : kv ∈ Status.optEntry name v) : ∃ w, v = some w ∧ kv.2 = w := by
  unfold Status.optEntry at h
  match v with
  | none => cases h
  | some w =>
    simp only [List.mem_cons, List.not_mem_nil, or_false] at h
    exact ⟨w, rfl, by rw [h]⟩

theorem serializeData_floats (s : Status) :
    ∀ kv ∈ Status.serializeData s, ∀ q, kv.2 = .jfloat q → q.den ∣ 1000 := by
  intro kv hkv q hq
  unfold Status.serializeData at hkv
  simp only [List.mem_append] at hkv
  rcases hkv with ((((((h | h) | h) | h) | h) | h) | h) | h
  all_goals obtain ⟨w, hv, hsnd⟩ := mem_optEntry h
  all_goals rw [hsnd] at hq
  all_goals obtain ⟨a, _, ha⟩ := Option.map_eq_some'.mp hv
  all_goals rw [← ha] at hq
  all_goals cases hq
  all_goals exact round3_den_dvd a

/-- C3: for every `Status` with any subset of its eight optional fields
set, `Status.deserialize (Status.serialize s)` succeeds and returns `s`
with each set float field replaced by its value rounded to three decimal
digits and all unset fields still unset. -/
theorem status_roundtrip (s : Status) :
    Status.deserialize (Status.serialize s) = .ok (roundStatus3 s) := by
  unfold Status.serialize Status.deserialize
  rw [utf8Encode_ascii _ (jsonDumps_ascii _), utf8Decode_ascii _ (jsonDumps_ascii _)]
  dsimp only []
  rw [jsonParse_jsonDumps _ (serializeData_floats s)]
  exact deserializeData_serializeData s

end Sentinel
